import Mathlib

/-!
# Verification development for the darjeeling `generation` module

Shallow embedding of `src/generation.rs` (the generative `NeuralNetwork`):
network construction, forward propagation, backpropagation, the adversarial
training loop, and the textual model codec, together with theorems checking
the natural-language specification against that code.

Modelling conventions:
* Rust `f32` values are embedded as `ℚ` (exact rational arithmetic stands in
  for floating point; the codec claims are stated "to parsing precision",
  i.e. up to the scalar print/parse pair, which is passed explicitly).
* Rust `String` content handled character-by-character by the codec is
  embedded as `List Char`; a text file is embedded as its list of lines
  (the writer joins lines with `"\n"` and the reader splits on line breaks,
  which is faithful as long as no serialized scalar contains a newline —
  an explicit hypothesis of the round-trip theorem).
* Fallible operations return `Option` (`none` = a Rust panic such as
  `Option::unwrap` on `None` or an out-of-bounds index) or `RunRes`
  (which distinguishes `Ok`, a returned `DarjeelingError`, and a panic).
* The modules `node.rs`, `activation.rs`, `categorize.rs`, `input.rs` of the
  repository are not available; the definitions taken from them are
  modelled from the spec and marked `Modelled from the spec:`.
-/

/-- Modelled from the spec: the external closed label set
`types::Types` ({Integer, Float, Boolean, Text}); `input.rs`/`types.rs`
are not part of the sources at hand. -/
inductive Types where
  | TInteger : Int → Types
  | TFloat : ℚ → Types
  | TBoolean : Bool → Types
  | TString : String → Types
deriving DecidableEq, Repr

/-- Modelled from the spec: the external `activation::ActivationFunction`
capability with variants {Sigmoid, Linear, Tanh, Step}. -/
inductive ActivationFunction where
  | Sigmoid
  | Linear
  | Tanh
  | Step
deriving DecidableEq, Repr

/-- The per-neuron record (`node::Node`).  Modelled from the spec:
ordered incoming link weights, cached link input values of the same length,
link count, bias weight, cached output, error signal, optional category and
ground-truth flag (the last two are carried but unused by this module). -/
structure Node where
  link_weights : List ℚ
  link_vals : List (Option ℚ)
  links : Nat
  b_weight : Option ℚ
  cached_output : Option ℚ
  err_sig : Option ℚ
  category : Option Types
  correct_answer : Option Bool
deriving DecidableEq, Repr

/-- Modelled from the spec: `Node::new(weights, b_weight)` builds a node
whose link weights are `weights`, with `links = weights.len()`, cached link
values unset, and the given bias; output/error/category unset. -/
def Node.nodeNew (weights : List ℚ) (b : Option ℚ) : Node :=
  { link_weights := weights
    link_vals := List.replicate weights.length none
    links := weights.length
    b_weight := b
    cached_output := none
    err_sig := none
    category := none
    correct_answer := none }

/-- Modelled from the spec: one training/inference sample (`input::Input`):
an ordered sequence of feature values and an optional label. -/
structure Input where
  inputs : List ℚ
  answer : Option Types
deriving DecidableEq, Repr

/-- Modelled from the spec: `Input::new`. -/
def Input.inputNew (vals : List ℚ) (ans : Option Types) : Input :=
  { inputs := vals, answer := ans }

/-- The error taxonomy of `error::DarjeelingError` restricted to the
variants raised by `generation.rs`. -/
inductive DarjeelingError where
  | WriteModelFailed : String → DarjeelingError
  | RemoveModelFailed : String → DarjeelingError
  | DisinguishingModelError : String → DarjeelingError
  | ReadModelFailed : String → DarjeelingError
  | UnknownError : String → DarjeelingError
deriving DecidableEq, Repr

/-- Outcome of running a fallible Rust function: a returned value, a
returned error, or a process panic (with its message). -/
inductive RunRes (α : Type) where
  | ok : α → RunRes α
  | err : DarjeelingError → RunRes α
  | panik : String → RunRes α
deriving DecidableEq, Repr

/-- `true` iff the run ended in a panic. -/
def RunRes.isPanik : RunRes α → Bool
  | .panik _ => true
  | _ => false

/-- The top-level network struct of `generation.rs`. -/
structure Network where
  node_array : List (List Node)
  sensor : Option Nat
  answer : Option Nat
  parameters : Option Nat
  activation_function : ActivationFunction
deriving DecidableEq, Repr

/-! ## List index utilities (explicit models of Rust indexing) -/

/-- `l[i]` as an `Option` (Rust indexing panics out of bounds; callers
treat `none` as that panic). -/
def getIdx : List α → Nat → Option α
  | [], _ => none
  | a :: _, 0 => some a
  | _ :: as, n + 1 => getIdx as n

/-- `l[i] = a` (in-bounds update; out of bounds leaves the list unchanged —
every use is guarded by a `getIdx` bounds check). -/
def setIdx : List α → Nat → α → List α
  | [], _, _ => []
  | _ :: as, 0, b => b :: as
  | a :: as, n + 1, b => a :: setIdx as n b

/-! ## Character-level string utilities (models of the Rust `str` methods
used by the codec: `split`, `trim`, line handling) -/

/-- Model of Rust `str::split(c)`: splits into the (possibly empty)
segments between occurrences of `c`; never returns an empty list. -/
def splitOnChar (c : Char) : List Char → List (List Char)
  | [] => [[]]
  | a :: rest =>
    match splitOnChar c rest with
    | [] => [[]]
    | s :: ss => if a = c then [] :: s :: ss else (a :: s) :: ss

/-- Joins segments with a single separator character (the shape the
serializer produces: separator only between elements). -/
def icalate (c : Char) : List (List Char) → List Char
  | [] => []
  | [x] => x
  | x :: xs => x ++ c :: icalate c xs

/-- Model of Rust `str::trim`: strips whitespace from both ends. -/
def trimChars (l : List Char) : List Char :=
  ((l.dropWhile Char.isWhitespace).reverse.dropWhile Char.isWhitespace).reverse

/-! ## Node operations (`node.rs` is not among the sources; these are
modelled from the spec) -/

/-- Modelled from the spec: `Node::output` — the node's output is the
weighted sum of the cached link input values plus the bias, passed through
the active activation function (§4.2).  The activation evaluation itself is
an external capability, passed in as `act`.  An unset cached link value
contributes zero to the sum; an unset bias is a panic. -/
def Node.outputVal (act : ActivationFunction → ℚ → ℚ) (af : ActivationFunction)
    (n : Node) : Option ℚ :=
  n.b_weight.map (fun b =>
    act af ((List.zip n.link_weights n.link_vals).foldl
      (fun s wv => s + wv.1 * wv.2.getD 0) 0 + b))

/-- Modelled from the spec: `Node::output` also caches the produced value
in `cached_output` (§4.2: "populate `cached_output` for every node"). -/
def Node.runOutput (act : ActivationFunction → ℚ → ℚ) (af : ActivationFunction)
    (n : Node) : Option Node :=
  (n.outputVal act af).map (fun v => { n with cached_output := some v })

/-- Modelled from the spec: `Node::compute_answer_err_sig_gen` — the
answer-layer error signal is computed from the epoch's loss term (§4.3),
in the hard-coded sigmoid-derivative form `mse * o * (1 - o)` (§9 notes the
derivative `o*(1-o)` is reused for every activation choice).  Reading an
unset cached output is a panic. -/
def Node.computeAnswerErrSigGen (mse : ℚ) (n : Node) : Option Node :=
  n.cached_output.map (fun o => { n with err_sig := some (mse * o * (1 - o)) })

/-- Modelled from the spec: `Node::adjust_weights` — every link weight is
updated by `weight -= learning_rate * error_signal * input_value` and the
bias by the analogous update using the node's own error signal only (§4.3).
Unset error signal, link value or bias is a panic. -/
def Node.adjustWeights (rate : ℚ) (n : Node) : Option Node := do
  let s ← n.err_sig
  let vals ← n.link_vals.mapM id
  let b ← n.b_weight
  some { n with
    link_weights := (n.link_weights.zip vals).map (fun wv => wv.1 - rate * s * wv.2)
    b_weight := some (b - rate * s) }

/-! ## Network accessors -/

/-- `self.node_array[l][i]` as an `Option`. -/
def Network.getNode (net : Network) (l i : Nat) : Option Node :=
  (getIdx net.node_array l).bind (fun layer => getIdx layer i)

/-- `self.node_array[l][i] = nd` (no-op out of bounds; uses are guarded). -/
def Network.setNode (net : Network) (l i : Nat) (nd : Node) : Network :=
  { net with node_array :=
      match getIdx net.node_array l with
      | none => net.node_array
      | some layer => setIdx net.node_array l (setIdx layer i nd) }

/-- The trainable-parameter footprint of a node: its link weights and its
bias weight (what `test` must leave unchanged and the codec must persist). -/
def nodeSig (nd : Node) : List ℚ × Option ℚ := (nd.link_weights, nd.b_weight)

/-- All link weights and bias weights of the network, layer by layer. -/
def netWeights (net : Network) : List (List (List ℚ × Option ℚ)) :=
  net.node_array.map (fun layer => layer.map nodeSig)

/-! ## `NeuralNetwork::new` -/

/-- A node as built by the struct literals inside `NeuralNetwork::new`:
empty weight/value vectors, a link count, and everything else unset except
a possible zero `cached_output` (answer nodes). -/
def blankNode (links : Nat) (cached : Option ℚ) : Node :=
  { link_weights := [], link_vals := [], links := links, b_weight := none
    cached_output := cached, err_sig := none, category := none
    correct_answer := none }

/-- The weight-initialisation pass of `new` for a single node: assign the
bias from the random stream, then push one random link weight and one unset
link value per link.  Returns the filled node and the next stream index. -/
def fillNode (rng : Nat → ℚ) (k : Nat) (nd : Node) : Node × Nat :=
  ({ nd with
      b_weight := some (rng k)
      link_weights := nd.link_weights ++ (List.range nd.links).map (fun j => rng (k + 1 + j))
      link_vals := nd.link_vals ++ List.replicate nd.links none },
   k + 1 + nd.links)

/-- The weight-initialisation pass of `new` over one layer. -/
def fillLayer (rng : Nat → ℚ) : Nat → List Node → List Node × Nat
  | k, [] => ([], k)
  | k, nd :: nds =>
    let p := fillNode rng k nd
    let q := fillLayer rng p.2 nds
    (p.1 :: q.1, q.2)

/-- The weight-initialisation pass of `new` over the whole array. -/
def fillNet (rng : Nat → ℚ) : Nat → List (List Node) → List (List Node) × Nat
  | k, [] => ([], k)
  | k, layer :: rest =>
    let p := fillLayer rng k layer
    let q := fillNet rng p.2 rest
    (p.1 :: q.1, q.2)

/-- The parameter-counting loop at the end of `new`:
`params += 1 + node.links` over all nodes. -/
def countParams (arr : List (List Node)) : Nat :=
  arr.foldl (fun p layer => layer.foldl (fun p nd => p + (1 + nd.links)) p) 0

/-- `NeuralNetwork::new(pixel_input, hidden_num, pixel_output,
hidden_layers, activation_function)`.  The random source is an explicit
stream `rng`; construction is total. -/
def Network.newNet (rng : Nat → ℚ) (pixel_input hidden_num pixel_output hidden_layers : Nat)
    (af : ActivationFunction) : Network :=
  let sensorL : List Node := List.replicate pixel_input (Node.nodeNew [] none)
  let arrH : List (List Node) := (List.range hidden_layers).foldl
    (fun arr _ =>
      arr ++ [List.replicate hidden_num (blankNode ((arr.getLast?.getD []).length) none)])
    [sensorL]
  let answer_links : Nat := (arrH.getLast?.getD []).length
  let arrA : List (List Node) :=
    arrH ++ [List.replicate pixel_output (blankNode answer_links (some 0))]
  let arrF : List (List Node) := (fillNet rng 0 arrA).1
  { node_array := arrF
    sensor := some 0
    answer := some (hidden_layers + 1)
    parameters := some (countParams arrF)
    activation_function := af }

/-- The spec's parameter formula: the sum over all nodes of `links + 1`. -/
def specParamCount (net : Network) : Nat :=
  (net.node_array.map (fun layer => (layer.map (fun nd => nd.links + 1)).sum)).sum

/-! ## Forward propagation (`push_downstream`) -/

/-- `NeuralNetwork::push_downstream(data, line)`: copy the sample's feature
values onto the sensor layer (indexing the sample with the sensor node's
index — out of bounds is a panic), then feed forward layer by layer,
writing each previous node's cached output into the node's `link_vals` and
recomputing the node's output (the source calls `output` redundantly inside
the inner loop and once after it; both calls are modelled). -/
def pushDownstream (act : ActivationFunction → ℚ → ℚ) (net : Network)
    (data : List Input) (line : Nat) : Option Network := do
  let sidx ← net.sensor
  let slayer ← getIdx net.node_array sidx
  let sample ← getIdx data line
  let net ← (List.range slayer.length).foldlM (fun (net : Network) i => do
      let v ← getIdx sample.inputs i
      let nd ← net.getNode sidx i
      some (net.setNode sidx i { nd with cached_output := some v })) net
  (List.range' 1 (net.node_array.length - 1)).foldlM (fun (net : Network) layer => do
      let clayer ← getIdx net.node_array layer
      (List.range clayer.length).foldlM (fun (net : Network) node => do
          let player ← getIdx net.node_array (layer - 1)
          let net ← (List.range player.length).foldlM (fun (net : Network) prev => do
              let pnd ← net.getNode (layer - 1) prev
              let pv ← pnd.cached_output
              let nd ← net.getNode layer node
              if prev < nd.link_vals.length then
                let net := net.setNode layer node
                  { nd with link_vals := setIdx nd.link_vals prev (some pv) }
                let nd2 ← net.getNode layer node
                let nd3 ← nd2.runOutput act net.activation_function
                some (net.setNode layer node nd3)
              else none) net
          let nd ← net.getNode layer node
          let nd' ← nd.runOutput act net.activation_function
          some (net.setNode layer node nd')) net) net

/-! ## Inference (`test`) -/

/-- Reading the answer layer after a forward pass: the source calls
`node.output(...)` on each answer node (which recomputes and re-caches the
value) and pushes the returned value. -/
def collectAnswerOutputs (act : ActivationFunction → ℚ → ℚ) (net : Network) :
    Option (List ℚ × Network) := do
  let aidx ← net.answer
  let alayer ← getIdx net.node_array aidx
  (List.range alayer.length).foldlM (fun (acc : List ℚ × Network) i => do
      let nd ← acc.2.getNode aidx i
      let nd' ← nd.runOutput act acc.2.activation_function
      let v ← nd'.cached_output
      some (acc.1 ++ [v], acc.2.setNode aidx i nd')) ([], net)

/-- `NeuralNetwork::test(data)`: shuffle the samples (the shuffle is the
explicit function `sh`), run one forward pass per sample and collect one
unlabeled output vector per sample. -/
def testRun (act : ActivationFunction → ℚ → ℚ) (sh : List Input → List Input)
    (net : Network) (data : List Input) : Option (List Input × Network) := do
  let d := sh data
  (List.range d.length).foldlM (fun (acc : List Input × Network) i => do
      let net ← pushDownstream act acc.2 d i
      let p ← collectAnswerOutputs act net
      some (acc.1 ++ [Input.inputNew p.1 none], p.2)) ([], net)

/-! ## Backpropagation -/

/-- One iteration of the `next_layer` loop inside
`adjust_hidden_weights`: read the weight `m→n`, default the next node's
error signal to `Some(0.0)` if it is still unset, and accumulate
`err_sig(m) * weight(m→n)` into the current node's error signal. -/
def nextLoopStep (H hidden : Nat) (net : Network) (nl : Nat) : Option Network := do
  let nextNode ← net.getNode (H + 1) nl
  let nw ← getIdx nextNode.link_weights hidden
  let net := if nextNode.err_sig.isNone
    then net.setNode (H + 1) nl { nextNode with err_sig := some 0 }
    else net
  let nextNode2 ← net.getNode (H + 1) nl
  let nsig ← nextNode2.err_sig
  let cur ← net.getNode H hidden
  let csig ← cur.err_sig
  some (net.setNode H hidden { cur with err_sig := some (csig + nsig * nw) })

/-- One iteration of the `hidden` loop inside `adjust_hidden_weights`:
zero the node's error signal, accumulate over the next layer, multiply by
`output * (1 - output)`, and immediately adjust this node's weights. -/
def hiddenNodeStep (rate : ℚ) (H : Nat) (net : Network) (hidden : Nat) :
    Option Network := do
  let cur0 ← net.getNode H hidden
  let net := net.setNode H hidden { cur0 with err_sig := some 0 }
  let nlayer ← getIdx net.node_array (H + 1)
  let net ← (List.range nlayer.length).foldlM (nextLoopStep H hidden) net
  let cur ← net.getNode H hidden
  let o ← cur.cached_output
  let s ← cur.err_sig
  let net := net.setNode H hidden { cur with err_sig := some (s * o * (1 - o)) }
  let cur2 ← net.getNode H hidden
  let cur3 ← cur2.adjustWeights rate
  some (net.setNode H hidden cur3)

/-- `NeuralNetwork::adjust_hidden_weights(learning_rate, hidden_layers)`:
iterates the hidden layers bottom-up (`HIDDEN` in `1..hidden_layers+1`). -/
def adjustHiddenWeights (rate : ℚ) (hiddenLayers : Nat) (net : Network) :
    Option Network :=
  (List.range' 1 hiddenLayers).foldlM (fun (net : Network) H => do
      let layer ← getIdx net.node_array H
      (List.range layer.length).foldlM (hiddenNodeStep rate H) net) net

/-- `NeuralNetwork::backpropogate(learning_rate, hidden_layers, mse)`:
compute all answer-layer error signals, run `adjust_hidden_weights`, then
adjust the answer-layer weights. -/
def backpropogate (rate : ℚ) (hiddenLayers : Nat) (mse : ℚ) (net : Network) :
    Option Network := do
  let aidx ← net.answer
  let alayer ← getIdx net.node_array aidx
  let net ← (List.range alayer.length).foldlM (fun (net : Network) i => do
      let nd ← net.getNode aidx i
      let nd' ← nd.computeAnswerErrSigGen mse
      some (net.setNode aidx i nd')) net
  let net ← adjustHiddenWeights rate hiddenLayers net
  let aidx2 ← net.answer
  let alayer2 ← getIdx net.node_array aidx2
  (List.range alayer2.length).foldlM (fun (net : Network) i => do
      let nd ← net.getNode aidx2 i
      let nd' ← nd.adjustWeights rate
      some (net.setNode aidx2 i nd')) net

/-! ## Reference two-phase backpropagation (from the spec's words) -/

/-- The spec's hidden-layer error-signal sum for node `k` of a layer whose
next layer is `nlayer`: sum over all nodes `m` of `nlayer` of
`error_signal(m) * weight(m→k)` (§4.3). -/
def specHiddenSigSum (nlayer : List Node) (k : Nat) : Option ℚ :=
  (nlayer.mapM (fun (m : Node) =>
      m.err_sig.bind (fun s => (getIdx m.link_weights k).map (fun w => s * w)))).map
    (fun (l : List ℚ) => l.sum)

/-- The spec's hidden-layer error signal for one node: the sum above times
the activation-derivative term `output * (1 - output)` (§4.3). -/
def refNodeSig (nlayer : List Node) (k : Nat) (nd : Node) : Option Node := do
  let s ← specHiddenSigSum nlayer k
  let o ← nd.cached_output
  some { nd with err_sig := some (s * o * (1 - o)) }

/-- Reference phase one, following the spec's words: compute an error
signal for every answer-layer node from the loss term, then propagate
error signals backward through the hidden layers (top-down, so that layer
`L` reads the fully computed signals of layer `L+1`), adjusting nothing. -/
def refComputeSigs (hiddenLayers : Nat) (mse : ℚ) (net : Network) :
    Option Network := do
  let aidx ← net.answer
  let alayer ← getIdx net.node_array aidx
  let net ← (List.range alayer.length).foldlM (fun (net : Network) i => do
      let nd ← net.getNode aidx i
      let nd' ← nd.computeAnswerErrSigGen mse
      some (net.setNode aidx i nd')) net
  (List.range' 1 hiddenLayers).reverse.foldlM (fun (net : Network) H => do
      let nlayer ← getIdx net.node_array (H + 1)
      let layer ← getIdx net.node_array H
      (List.range layer.length).foldlM (fun (net : Network) k => do
          let nd ← net.getNode H k
          let nd' ← refNodeSig nlayer k nd
          some (net.setNode H k nd')) net) net

/-- Reference phase two, following the spec's words: only after all error
signals are computed, adjust every hidden-layer and answer-layer weight. -/
def refAdjustAll (rate : ℚ) (hiddenLayers : Nat) (net : Network) :
    Option Network := do
  let net ← (List.range' 1 hiddenLayers).foldlM (fun (net : Network) H => do
      let layer ← getIdx net.node_array H
      (List.range layer.length).foldlM (fun (net : Network) k => do
          let nd ← net.getNode H k
          let nd' ← nd.adjustWeights rate
          some (net.setNode H k nd')) net) net
  let aidx ← net.answer
  let alayer ← getIdx net.node_array aidx
  (List.range alayer.length).foldlM (fun (net : Network) i => do
      let nd ← net.getNode aidx i
      let nd' ← nd.adjustWeights rate
      some (net.setNode aidx i nd')) net

/-- The reference two-phase backpropagation of claim C6: first compute all
error signals, only then apply all weight adjustments. -/
def refBackprop (rate : ℚ) (hiddenLayers : Nat) (mse : ℚ) (net : Network) :
    Option Network :=
  (refComputeSigs hiddenLayers mse net).bind (refAdjustAll rate hiddenLayers)

/-! ## Model codec (`write_model` / `read_model`)

A text file is embedded as its list of lines (`List (List Char)`); the
scalar print/parse pair standing in for `f32` Display/FromStr is passed
explicitly.  The filesystem is an association list from file name to
content; `Path::try_exists` is membership, and file creation/`fs::write`
are assumed to succeed (I/O failure is environment nondeterminism outside
the claims below). -/

def kwLb : List Char := "lb".toList

def kwSigmoid : List Char := "sigmoid".toList

def kwLinear : List Char := "linear".toList

def kwTanh : List Char := "tanh".toList

def kwStep : List Char := "step".toList

/-- Modelled from the spec: the `Display` rendering of
`ActivationFunction` is the lowercase name, matching the keywords
`read_model` recognises (§4.6). -/
def fmtAct : ActivationFunction → List Char
  | .Sigmoid => kwSigmoid
  | .Linear => kwLinear
  | .Tanh => kwTanh
  | .Step => kwStep

/-- One serialized node line, as built by `write_model`: the comma-joined
link weights, a semicolon, then the bias (`b_weight.unwrap()` — an unset
bias is a panic). -/
def nodeLine (fmt : ℚ → List Char) (nd : Node) : Option (List Char) :=
  nd.b_weight.map (fun b => icalate ',' (nd.link_weights.map fmt) ++ ';' :: fmt b)

/-- The serialized lines of one layer. -/
def layerLines (fmt : ℚ → List Char) (layer : List Node) : Option (List (List Char)) :=
  layer.mapM (nodeLine fmt)

/-- The full serialized content produced by `write_model`: layer zero's
node lines, then for every subsequent layer a `lb` marker line followed by
its node lines, then a final `lb` marker and the activation name. -/
def serializeNet (fmt : ℚ → List Char) (net : Network) : Option (List (List Char)) :=
  (net.node_array.mapM (layerLines fmt)).map (fun ls =>
    match ls with
    | [] => [kwLb, fmtAct net.activation_function]
    | f :: r => f ++ (r.map (fun l => kwLb :: l)).flatten
        ++ [kwLb, fmtAct net.activation_function])

/-- `format!("model_{}_{}.darj", name, file_num)`. -/
def mkModelName (name : String) (fileNum : Nat) : String :=
  "model_" ++ name ++ "_" ++ toString fileNum ++ ".darj"

/-- The modelled filesystem: file name to file content (as lines). -/
abbrev FS := List (String × List (List Char))

/-- `NeuralNetwork::write_model(name)`: draw a random `u32` suffix, build
the file name, and if a file of that name already exists recurse with a
fresh suffix (the explicit `fuel` bounds the retries; `none` means the
retry loop did not finish within the fuel).  Otherwise serialize and write.
The random stream is `rng`, read at consecutive indices from `idx`. -/
def writeModel (fmt : ℚ → List Char) (rng : Nat → Nat) :
    Nat → Nat → FS → Network → String → Option (RunRes String × FS)
  | _, 0, _, _, _ => none
  | idx, fuel + 1, fs, net, name =>
    let fileNum := rng idx % 2 ^ 32
    let mname := mkModelName name fileNum
    if (List.lookup mname fs).isSome then
      writeModel fmt rng (idx + 1) fuel fs net name
    else
      match serializeNet fmt net with
      | none => some (.panik "b_weight.unwrap() on None in write_model", fs)
      | some content => some (.ok mname, (mname, content) :: fs)

/-- Parser state of `read_model`: closed layers, the layer being filled,
and the activation choice seen so far. -/
structure PState where
  arr : List (List Node)
  layer : List Node
  act : Option ActivationFunction
deriving DecidableEq, Repr

/-- One line of `read_model`'s loop.  Activation keywords set the
activation; a (trimmed) `lb` closes the current layer; while no layer has
been closed yet a line is a sensor node (only the field after `;` is kept,
parsed as the bias — a missing field or failed parse is an unwrap/index
panic, `none`); afterwards a line is split at `;` into the comma-separated
weights and the bias, every field parsed (failure is a panic). -/
def readStep (parse : List Char → Option ℚ) (st : PState) (line : List Char) :
    Option PState :=
  if line = kwSigmoid then some { st with act := some .Sigmoid }
  else if line = kwLinear then some { st with act := some .Linear }
  else if line = kwTanh then some { st with act := some .Tanh }
  else if line = kwStep then some { st with act := some .Step }
  else if trimChars line = kwLb then
    some { arr := st.arr ++ [st.layer], layer := [], act := st.act }
  else if st.arr.length = 0 then
    match getIdx (splitOnChar ';' line) 1 with
    | none => none
    | some bs =>
      (parse bs).map (fun b => { st with layer := st.layer ++ [Node.nodeNew [] (some b)] })
  else
    let nd := splitOnChar ';' (trimChars line)
    match getIdx nd 1 with
    | none => none
    | some bs =>
      match (splitOnChar ',' (nd.headD [])).mapM parse, parse bs with
      | some ws, some b =>
        some { st with layer := st.layer ++ [Node.nodeNew ws (some b)] }
      | _, _ => none

/-- The content-parsing part of `read_model`: fold the line loop, then
require an activation (`activation.unwrap()` — a missing activation line is
a panic) and rederive `sensor = 0`, `answer = last layer index`.  (On an
empty file the source's `node_array.len() - 1` underflows — a debug-build
panic; here the activation unwrap panics first, so the modelled outcome is
a panic either way.) -/
def readModelLines (parse : List Char → Option ℚ) (lines : List (List Char)) :
    RunRes Network :=
  match lines.foldlM (readStep parse) ⟨[], [], none⟩ with
  | none => .panik "unwrap or index out of bounds while parsing model content"
  | some st =>
    match st.act with
    | none => .panik "activation.unwrap() on None"
    | some af =>
      .ok { node_array := st.arr, sensor := some 0
            answer := some (st.arr.length - 1), parameters := none
            activation_function := af }

/-- `NeuralNetwork::read_model(model_name)`: a failed file read returns
`ReadModelFailed`; otherwise the content is parsed. -/
def readModel (parse : List Char → Option ℚ) (fs : FS) (model_name : String) :
    RunRes Network :=
  match List.lookup model_name fs with
  | none => .err (.ReadModelFailed model_name)
  | some content => readModelLines parse content

/-! ## The adversarial training loop (`learn`) -/

/-- Modelled from the spec: the `Display` rendering of a
`DarjeelingError` (`error.rs` is not among the sources); any faithful
rendering names the variant and its payload. -/
def errText : DarjeelingError → String
  | .WriteModelFailed s => "WriteModelFailed: " ++ s
  | .RemoveModelFailed s => "RemoveModelFailed: " ++ s
  | .DisinguishingModelError s => "DisinguishingModelError: " ++ s
  | .ReadModelFailed s => "ReadModelFailed: " ++ s
  | .UnknownError s => "UnknownError: " ++ s

/-- The environment of `learn`: the activation capability, the scalar
formatter for persistence, the per-epoch shuffle, the random stream and
fuel for `write_model`, and oracles for the `categorize::NeuralNetwork`
collaborator (its module is not among the sources): whether reading a
persisted discriminator succeeds, whether `fs::remove_file` succeeds, the
random stream for a fresh discriminator's construction, and the nested
supervised `learn` call returning (model name, error percent, mse). -/
structure LearnEnv where
  act : ActivationFunction → ℚ → ℚ
  fmt : ℚ → List Char
  shuffle : Nat → List Input → List Input
  wrng : Nat → Nat
  wfuel : Nat
  discRng : Nat → ℚ
  discReadOk : String → Bool
  removeOk : String → Bool
  discLearn : List Input → ℚ → String → RunRes (String × ℚ × ℚ)

/-- The mutable state carried across epochs of `learn`: the generator
network, the sample vector, the accumulated outputs collection (note: the
source declares it outside the epoch loop, so it grows across epochs), the
persisted discriminator's name, and the filesystem. -/
structure LoopSt where
  net : Network
  data : List Input
  outputs : List Input
  modelName : Option String
  fs : FS

/-- One epoch of `learn` (`for _i in 0..max_cycles` body): shuffle; for
each sample run the forward pass, collect the answer outputs as a
fake-labeled `Input`, relabel the real sample `Boolean(true)` and push it
too; then the discriminator branch; then `backpropogate` with the
discriminator's mse.  On the first epoch (`model_name` is `None`) the
source constructs the fresh discriminator and then evaluates
`std::fs::remove_file(model_name.unwrap())` — an unconditional panic. -/
def epochStep (env : LearnEnv) (rate dRate : ℚ) (dHidden dLayers : Nat)
    (dAct : ActivationFunction) (name : String) (hiddenLayers : Nat)
    (st : LoopSt) (i : Nat) : Except (RunRes String) LoopSt := do
  let d0 := env.shuffle i st.data
  let inner : Option (Network × List Input × List Input) :=
    (List.range d0.length).foldlM (fun (acc : Network × List Input × List Input) line => do
      let net ← pushDownstream env.act acc.1 acc.2.1 line
      let p ← collectAnswerOutputs env.act net
      let outs := acc.2.2 ++ [Input.inputNew p.1 (some (Types.TBoolean false))]
      let s ← getIdx acc.2.1 line
      let d := setIdx acc.2.1 line { s with answer := some (Types.TBoolean true) }
      let s2 ← getIdx d line
      some (p.2, d, outs ++ [s2])) (st.net, d0, st.outputs)
  match inner with
  | none => Except.error (.panik "panic during the forward pass of an epoch")
  | some (net, d, outs) =>
    match st.modelName with
    | some mn =>
      if env.discReadOk mn then
        if env.removeOk mn then
          match env.discLearn outs dRate ("distinguishing" ++ name) with
          | .ok (nm, _, errmse) =>
            match backpropogate rate hiddenLayers errmse net with
            | none => Except.error (.panik "panic inside backpropogate")
            | some net' =>
              Except.ok ⟨net', d, outs, some nm, st.fs⟩
          | .err e => Except.error (.err (.DisinguishingModelError (errText e)))
          | .panik m => Except.error (.panik m)
        else Except.error (.err (.RemoveModelFailed mn))
      else Except.error (.panik "categorize read_model unwrap on Err")
    | none =>
      match st.net.answer with
      | none => Except.error (.panik "answer.unwrap() on None")
      | some aidx =>
        match getIdx net.node_array aidx with
        | none => Except.error (.panik "answer layer index out of bounds")
        | some alayer =>
          let _disc := Network.newNet env.discRng alayer.length dHidden 2 dLayers dAct
          Except.error (.panik "called Option unwrap on a None value")

/-- The tail of `learn`: persist the generator with `write_model` and map
its outcome (the network itself is returned unchanged by this step). -/
def finishWrite (net : Network) (fs : FS) (r : Option (RunRes String × FS)) :
    RunRes String × Network × FS :=
  match r with
  | none => (.panik "write_model retry loop did not terminate", net, fs)
  | some (res, fs') => (res, net, fs')

/-- `NeuralNetwork::learn(data, learning_rate, name, max_cycles,
distinguising_learning_rate, distinguising_hidden_neurons,
distinguising_hidden_layers, distinguising_activation)`: run the epoch
loop `max_cycles` times (an `i32`; no iterations when it is `≤ 0`), then
persist the generator and return its model name.  On an epoch abort the
returned network/filesystem components are the entry values (the source
mutates in place and returns only the error; the claims below inspect only
the result value in that case). -/
def learn (env : LearnEnv) (net : Network) (data : List Input) (rate : ℚ)
    (name : String) (maxCycles : Int) (dRate : ℚ) (dHidden dLayers : Nat)
    (dAct : ActivationFunction) (fs : FS) : RunRes String × Network × FS :=
  let hiddenLayers := net.node_array.length - 2
  match (List.range maxCycles.toNat).foldlM
      (epochStep env rate dRate dHidden dLayers dAct name hiddenLayers)
      (⟨net, data, [], none, fs⟩ : LoopSt) with
  | .error r => (r, net, fs)
  | .ok st => finishWrite st.net st.fs
      (writeModel env.fmt env.wrng 0 env.wfuel st.fs st.net name)

/-! ## Well-formedness -/

/-- A node is well-formed for a previous-layer width: its link count and
both per-link vectors have that length and its bias is set (the spec's
`link_weights.len() == link_vals.len() == links` invariant, §3). -/
def Node.wfIn (prevLen : Nat) (nd : Node) : Prop :=
  nd.links = prevLen ∧ nd.link_weights.length = prevLen ∧
  nd.link_vals.length = prevLen ∧ nd.b_weight.isSome = true

instance (prevLen : Nat) (nd : Node) : Decidable (nd.wfIn prevLen) := by
  unfold Node.wfIn; infer_instance

/-- Structural well-formedness of a network (the spec's §3 invariants):
at least a sensor and an answer layer, the recorded sensor/answer indices,
and every node sized for its previous layer (zero links on the sensor
layer). -/
def Network.Wf (net : Network) : Prop :=
  2 ≤ net.node_array.length ∧
  net.sensor = some 0 ∧
  net.answer = some (net.node_array.length - 1) ∧
  ∀ i, i < net.node_array.length →
    ∀ nd ∈ (getIdx net.node_array i).getD [],
      nd.wfIn (if i = 0 then 0 else ((getIdx net.node_array (i - 1)).getD []).length)

instance (net : Network) : Decidable net.Wf := by
  unfold Network.Wf; infer_instance

/-- Every node's `cached_output` is set (the state after a forward pass). -/
def Network.AllCached (net : Network) : Prop :=
  ∀ layer ∈ net.node_array, ∀ nd ∈ layer, nd.cached_output.isSome = true

instance (net : Network) : Decidable net.AllCached := by
  unfold Network.AllCached; infer_instance

/-- Every node's cached link values are set (the state after a forward
pass; `adjust_weights` unwraps them). -/
def Network.AllVals (net : Network) : Prop :=
  ∀ layer ∈ net.node_array, ∀ nd ∈ layer, ∀ v ∈ nd.link_vals, v.isSome = true

instance (net : Network) : Decidable net.AllVals := by
  unfold Network.AllVals; infer_instance

/-- What claim C3 requires to survive the round trip: layer count, per-node
weight counts, weight and bias values, and the activation choice. -/
def NetEquiv (n1 n2 : Network) : Prop :=
  netWeights n1 = netWeights n2 ∧
  n1.activation_function = n2.activation_function

/-- Every scalar the serializer prints: all link weights and set biases. -/
def netScalars (net : Network) : List ℚ :=
  (net.node_array.map (fun layer =>
    (layer.map (fun nd => nd.link_weights ++ nd.b_weight.toList)).flatten)).flatten

/-- A printable scalar rendering: no separator characters and no
whitespace (what Rust's float `Display` guarantees). -/
def GoodChars (l : List Char) : Prop :=
  ∀ ch ∈ l, ch ≠ ',' ∧ ch ≠ ';' ∧ ch.isWhitespace = false

instance (l : List Char) : Decidable (GoodChars l) := by
  unfold GoodChars; infer_instance

/-! ## A concrete scalar codec (used to instantiate witnesses) -/

def digitChar (d : Nat) : Char := Char.ofNat (48 + d)

def natCharsCore : Nat → Nat → List Char
  | 0, _ => []
  | fuel + 1, n =>
    if n < 10 then [digitChar n]
    else natCharsCore fuel (n / 10) ++ [digitChar (n % 10)]

def natChars (n : Nat) : List Char := natCharsCore (n + 1) n

def intChars (i : Int) : List Char :=
  if i < 0 then '-' :: natChars i.natAbs else natChars i.natAbs

/-- A concrete injective rational rendering `num p den`. -/
def fmtW (q : ℚ) : List Char := intChars q.num ++ 'p' :: natChars q.den

def digitVal (c : Char) : Option Nat :=
  if 48 ≤ c.toNat ∧ c.toNat ≤ 57 then some (c.toNat - 48) else none

def parseNatChars (l : List Char) : Option Nat :=
  match l with
  | [] => none
  | _ => l.foldlM (fun acc c => (digitVal c).map (fun d => acc * 10 + d)) 0

def parseIntChars : List Char → Option Int
  | '-' :: rest => (parseNatChars rest).map (fun n => -(n : Int))
  | l => (parseNatChars l).map (fun n => (n : Int))

/-- The parser matching `fmtW`. -/
def parseW (l : List Char) : Option ℚ :=
  match splitOnChar 'p' l with
  | [a, b] =>
    (parseIntChars a).bind (fun n =>
      (parseNatChars b).bind (fun d =>
        if d ≠ 0 then some ((n : ℚ) / (d : ℚ)) else none))
  | _ => none

/-- A concrete activation capability for witnesses (the claims hold for an
arbitrary one; the identity keeps witness arithmetic exact). -/
def actId : ActivationFunction → ℚ → ℚ := fun _ q => q

instance (n1 n2 : Network) : Decidable (NetEquiv n1 n2) := by
  unfold NetEquiv; infer_instance

/-! ## Concrete fixtures (small networks and an environment used by the
witnesses and counterexamples) -/

/-- A concrete node [weights, cached link values, bias, cached output]. -/
def mkNode (ws : List ℚ) (vs : List (Option ℚ)) (b o : Option ℚ) : Node :=
  { link_weights := ws, link_vals := vs, links := ws.length, b_weight := b
    cached_output := o, err_sig := none, category := none
    correct_answer := none }

/-- A 1-1-1-1 network (two hidden layers) in a post-forward-pass state. -/
def cnet2 : Network :=
  { node_array := [
      [mkNode [] [] (some 0) (some 1)],
      [mkNode [1/2] [some 1] (some 0) (some (1/2))],
      [mkNode [1/3] [some (1/2)] (some 0) (some (1/2))],
      [mkNode [1/4] [some (1/2)] (some 0) (some (1/2))]]
    sensor := some 0, answer := some 3, parameters := none
    activation_function := .Sigmoid }

/-- A 2-sensor, 1-answer network with no hidden layer. -/
def cnet5 : Network :=
  { node_array := [
      [mkNode [] [] (some 0) none, mkNode [] [] (some 0) none],
      [mkNode [1/2, 1/2] [none, none] (some 0) (some 0)]]
    sensor := some 0, answer := some 1, parameters := none
    activation_function := .Sigmoid }

/-- A 2-sensor, 1-answer network with distinct scalars (codec witness). -/
def cnet1b : Network :=
  { node_array := [
      [mkNode [] [] (some (1/2)) none, mkNode [] [] (some (2/5)) none],
      [mkNode [1/2, -3/7] [none, none] (some (1/3)) (some 0)]]
    sensor := some 0, answer := some 1, parameters := none
    activation_function := .Tanh }

/-- A 2-2-1 network (one hidden layer) in a post-forward-pass state. -/
def cnet3 : Network :=
  { node_array := [
      [mkNode [] [] (some 0) (some 1), mkNode [] [] (some 0) (some (1/2))],
      [mkNode [1/2, 1/3] [some 1, some (1/2)] (some 0) (some (1/4)),
       mkNode [1/5, 1/7] [some 1, some (1/2)] (some 0) (some (1/3))],
      [mkNode [1/2, 1/4] [some (1/4), some (1/3)] (some 0) (some (1/2))]]
    sensor := some 0, answer := some 2, parameters := none
    activation_function := .Sigmoid }

/-- A concrete `learn` environment. -/
def env0 : LearnEnv :=
  { act := actId, fmt := fmtW, shuffle := fun _ d => d, wrng := fun i => i + 3
    wfuel := 4, discRng := fun _ => 1/4, discReadOk := fun _ => true
    removeOk := fun _ => true
    discLearn := fun _ _ nm => .ok (nm, 0, 1/2) }

/-- A filesystem state containing one colliding model file. -/
def fs8 : FS := [(mkModelName "m" 7, [])]

/-- A random stream whose first draw collides with `fs8`. -/
def rng8 : Nat → Nat := fun i => 7 + i

/-- The filesystem after the witnessed `write_model` call. -/
def wit8fs : FS := (mkModelName "m" 8, (serializeNet fmtW cnet1b).getD []) :: fs8

/-! ## C4: `read_model` on malformed content -/

/-- Malformed model files: a non-numeric bias field, a line with no
semicolon-separated field, a file with no activation line, an empty file. -/
def fsBad : FS :=
  [("model_bad1.darj", [String.toList "x;y", kwLb, kwSigmoid]),
   ("model_bad2.darj", [String.toList "abc", kwLb, kwSigmoid]),
   ("model_bad3.darj", [String.toList ";1p2", kwLb]),
   ("model_bad4.darj", [])]

/-- Replace one whole layer. -/
def Network.setLayer (net : Network) (L : Nat) (layer : List Node) : Network :=
  { net with node_array := setIdx net.node_array L layer }

/-- The body of every per-node layer loop: read the node at `(L, i)`,
transform it, write it back. -/
def stepAt (L : Nat) (g : Nat → Node → Option Node) (net : Network) (i : Nat) :
    Option Network :=
  (net.getNode L i).bind (fun nd => (g i nd).bind (fun nd' => some (net.setNode L i nd')))

/-- Transform the elements of a list by an index-aware fallible function. -/
def mapIdxM (g : Nat → Node → Option Node) : Nat → List Node → Option (List Node)
  | _, [] => some []
  | i, nd :: nds =>
    (g i nd).bind (fun nd' => (mapIdxM g (i + 1) nds).map (fun nds' => nd' :: nds'))

/-- The net effect of `adjust_hidden_weights`' per-node body on its node,
once the next layer's error signals are all set: the spec's error-signal
formula followed by the weight adjustment. -/
def hiddenNodeFun (rate : ℚ) (nlayer : List Node) (k : Nat) (nd : Node) :
    Option Node := do
  let s ← specHiddenSigSum nlayer k
  let o ← nd.cached_output
  Node.adjustWeights rate { nd with err_sig := some (s * o * (1 - o)) }

/-- The claim's hidden-layer error-signal formula for a network with one
hidden layer, written over the pre-backpropagation network state: the sum
over all answer-layer nodes `m` of `error_signal(m) * weight(m→k)` — with
`error_signal(m) = mse * o_m * (1 - o_m)` fully computed from the loss
term — multiplied by `o_k * (1 - o_k)` (§4.3). -/
def specOneHiddenSig (mse : ℚ) (net : Network) (k : Nat) : Option ℚ := do
  let alayer ← getIdx net.node_array 2
  let terms ← alayer.mapM (fun (m : Node) => m.cached_output.bind (fun om =>
      (getIdx m.link_weights k).map (fun w => mse * om * (1 - om) * w)))
  let nd ← net.getNode 1 k
  let o ← nd.cached_output
  pure (terms.sum * o * (1 - o))

/-- The per-node reconstruction performed by `read_model` on a faithfully
serialized node: `Node::new` on the same weights and bias. -/
def reconNode (nd : Node) : Node := Node.nodeNew nd.link_weights nd.b_weight

/-- What `read_model` rebuilds from `write_model`'s output. -/
def reconNet (net : Network) : Network :=
  { node_array := net.node_array.map (fun layer => layer.map reconNode)
    sensor := some 0
    answer := some (net.node_array.length - 1)
    parameters := none
    activation_function := net.activation_function }

/-- The network state left behind by the `C9` witness run: `cnet5` after a
forward pass on the sample `[1, 2]` (only caches and `link_vals` change). -/
def c9net : Network :=
  { node_array := [
      [mkNode [] [] (some 0) (some 1), mkNode [] [] (some 0) (some 2)],
      [mkNode [1/2, 1/2] [some 1, some 2] (some 0) (some (3/2))]]
    sensor := some 0, answer := some 1, parameters := none
    activation_function := .Sigmoid }

/-- A weight stream for the `C3` counterexample (all values distinct and
codec-exact). -/
def c3rng : Nat → ℚ := fun k => 1 / (k + 2)

/-- `NeuralNetwork::new(2, 0, 2, 1, Sigmoid)`: zero hidden neurons, so the
hidden layer is empty and the answer nodes have zero incoming links. -/
def c3badNet : Network := Network.newNet c3rng 2 0 2 1 .Sigmoid

/-- The filesystem produced by a successful `write_model` of `c3badNet`:
the zero-link answer nodes serialize as bare `;bias` lines. -/
def c3badFs : FS :=
  [("model_net_8.darj",
    [";1p2".toList, ";1p3".toList, "lb".toList, "lb".toList,
     ";1p4".toList, ";1p5".toList, "lb".toList, "sigmoid".toList])]

/-! ## Theorems -/

theorem getIdx_append_left {l l' : List α} {i : Nat} (h : i < l.length) :
    getIdx (l ++ l') i = getIdx l i := by
  induction l generalizing i with
  | nil => simp at h
  | cons a as ih =>
    cases i with
    | zero => rfl
    | succ n => simpa [getIdx] using ih (by simpa using h)

theorem getIdx_append_right (l l' : List α) :
    getIdx (l ++ l') l.length = getIdx l' 0 := by
  induction l with
  | nil => rfl
  | cons a as ih => simpa [getIdx] using ih

theorem getIdx_length_le {l : List α} {i : Nat} (h : l.length ≤ i) :
    getIdx l i = none := by
  induction l generalizing i with
  | nil => rfl
  | cons a as ih =>
    cases i with
    | zero => simp at h
    | succ n => simpa [getIdx] using ih (by simpa using h)

theorem getIdx_lt_length {l : List α} {i : Nat} {a : α}
    (h : getIdx l i = some a) : i < l.length := by
  by_contra hc
  rw [getIdx_length_le (by omega)] at h
  exact Option.noConfusion h

theorem length_setIdx (l : List α) (i : Nat) (a : α) :
    (setIdx l i a).length = l.length := by
  induction l generalizing i with
  | nil => rfl
  | cons b bs ih =>
    cases i with
    | zero => rfl
    | succ n => simpa [setIdx] using ih n

theorem getIdx_setIdx_self {l : List α} {i : Nat} (a : α) (h : i < l.length) :
    getIdx (setIdx l i a) i = some a := by
  induction l generalizing i with
  | nil => simp at h
  | cons b bs ih =>
    cases i with
    | zero => rfl
    | succ n => simpa [setIdx, getIdx] using ih (by simpa using h)

theorem getIdx_setIdx_ne {l : List α} {i j : Nat} (a : α) (h : i ≠ j) :
    getIdx (setIdx l i a) j = getIdx l j := by
  induction l generalizing i j with
  | nil => rfl
  | cons b bs ih =>
    cases i with
    | zero =>
      cases j with
      | zero => exact absurd rfl h
      | succ m => rfl
    | succ n =>
      cases j with
      | zero => rfl
      | succ m => simpa [setIdx, getIdx] using ih (by omega)

theorem setIdx_append_left {l l' : List α} {i : Nat} (a : α) (h : i < l.length) :
    setIdx (l ++ l') i a = setIdx l i a ++ l' := by
  induction l generalizing i with
  | nil => simp at h
  | cons b bs ih =>
    cases i with
    | zero => rfl
    | succ n => simp [setIdx, ih (by simpa using h)]

theorem setIdx_append_right (l l' : List α) (a : α) :
    setIdx (l ++ l') l.length a = l ++ setIdx l' 0 a := by
  induction l with
  | nil => rfl
  | cons b bs ih => simp [setIdx, ih]

theorem splitOnChar_ne_nil (c : Char) (l : List Char) : splitOnChar c l ≠ [] := by
  cases l with
  | nil => simp [splitOnChar]
  | cons a rest =>
    simp only [splitOnChar]
    cases h : splitOnChar c rest with
    | nil => simp
    | cons s ss =>
      by_cases hac : a = c <;> simp [hac]

theorem splitOnChar_no_sep {c : Char} {l : List Char} (h : c ∉ l) :
    splitOnChar c l = [l] := by
  induction l with
  | nil => rfl
  | cons a rest ih =>
    have hne : a ≠ c := fun hac => h (hac ▸ List.mem_cons_self a rest)
    have hrest : c ∉ rest := fun hm => h (List.mem_cons_of_mem a hm)
    simp [splitOnChar, ih hrest, hne]

theorem splitOnChar_append_sep {c : Char} {l : List Char} (h : c ∉ l)
    (l' : List Char) :
    splitOnChar c (l ++ c :: l') = l :: splitOnChar c l' := by
  induction l with
  | nil =>
    simp only [List.nil_append, splitOnChar]
    cases hs : splitOnChar c l' with
    | nil => exact absurd hs (splitOnChar_ne_nil c l')
    | cons s ss => simp
  | cons a rest ih =>
    have hne : a ≠ c := fun hac => h (hac ▸ List.mem_cons_self a rest)
    have hrest : c ∉ rest := fun hm => h (List.mem_cons_of_mem a hm)
    simp only [List.cons_append, splitOnChar, List.append_eq]
    rw [ih hrest]
    simp [hne]

theorem splitOnChar_icalate {c : Char} {ls : List (List Char)}
    (hne : ls ≠ []) (h : ∀ s ∈ ls, c ∉ s) :
    splitOnChar c (icalate c ls) = ls := by
  induction ls with
  | nil => exact absurd rfl hne
  | cons x xs ih =>
    cases xs with
    | nil => exact splitOnChar_no_sep (h x (List.mem_cons_self x []))
    | cons y ys =>
      have hx : c ∉ x := h x (List.mem_cons_self x (y :: ys))
      have hrest : ∀ s ∈ y :: ys, c ∉ s := fun s hs => h s (List.mem_cons_of_mem x hs)
      simp only [icalate]
      rw [splitOnChar_append_sep hx]
      exact congrArg _ (ih (by simp) hrest)

theorem dropWhile_eq_self_of_not {p : α → Bool} {l : List α}
    (h : ∀ a ∈ l, ¬ p a) : l.dropWhile p = l := by
  cases l with
  | nil => rfl
  | cons a as =>
    rw [List.dropWhile_cons_of_neg]
    simp [h a (List.mem_cons_self a as)]

theorem trimChars_eq_self {l : List Char}
    (h : ∀ ch ∈ l, ¬ ch.isWhitespace) : trimChars l = l := by
  unfold trimChars
  have h1 : l.dropWhile Char.isWhitespace = l :=
    dropWhile_eq_self_of_not (by simpa using h)
  rw [h1]
  have h2 : l.reverse.dropWhile Char.isWhitespace = l.reverse :=
    dropWhile_eq_self_of_not (fun a ha => by simpa using h a (List.mem_reverse.mp ha))
  rw [h2, List.reverse_reverse]

/-! ## C7: parameter count -/

theorem foldl_count_layer (layer : List Node) (p0 : Nat) :
    layer.foldl (fun p nd => p + (1 + nd.links)) p0
      = p0 + (layer.map (fun nd => nd.links + 1)).sum := by
  induction layer generalizing p0 with
  | nil => simp
  | cons nd nds ih => simp [List.foldl_cons, ih]; ring

theorem countParams_eq (arr : List (List Node)) :
    countParams arr = (arr.map (fun layer => (layer.map (fun nd => nd.links + 1)).sum)).sum := by
  unfold countParams
  suffices h : ∀ p0 : Nat, arr.foldl (fun p layer => layer.foldl (fun p nd => p + (1 + nd.links)) p) p0
      = p0 + (arr.map (fun layer => (layer.map (fun nd => nd.links + 1)).sum)).sum by
    simpa using h 0
  induction arr with
  | nil => simp
  | cons l ls ih =>
    intro p0
    rw [List.foldl_cons, foldl_count_layer, ih, List.map_cons, List.sum_cons]
    omega

/-- C7: for all non-negative topology parameters (embedded as `Nat`) and
any random stream, the network built by `new` has
`parameters = some (sum over all nodes of (links + 1))`; construction is a
total function, so it cannot fail. -/
theorem C7_new_parameter_count (rng : Nat → ℚ)
    (pixel_input hidden_num pixel_output hidden_layers : Nat)
    (af : ActivationFunction) :
    (Network.newNet rng pixel_input hidden_num pixel_output hidden_layers af).parameters
      = some (specParamCount (Network.newNet rng pixel_input hidden_num pixel_output hidden_layers af)) := by
  have h : (Network.newNet rng pixel_input hidden_num pixel_output hidden_layers af).parameters
      = some (countParams (Network.newNet rng pixel_input hidden_num pixel_output hidden_layers af).node_array) := rfl
  rw [h, countParams_eq]
  rfl

/-! ## C10: `learn` with `max_cycles <= 0` -/

/-- C10: when `max_cycles ≤ 0` the epoch loop body never runs — no forward
pass, no discriminator work, no weight update, no file removal — and
`learn` is exactly `write_model` applied to the unchanged network on the
unchanged filesystem, its model name returned or its error propagated. -/
theorem C10_learn_no_cycles (env : LearnEnv) (net : Network) (data : List Input)
    (rate : ℚ) (name : String) (maxCycles : Int) (dRate : ℚ)
    (dHidden dLayers : Nat) (dAct : ActivationFunction) (fs : FS)
    (h : maxCycles ≤ 0) :
    learn env net data rate name maxCycles dRate dHidden dLayers dAct fs
      = finishWrite net fs (writeModel env.fmt env.wrng 0 env.wfuel fs net name) := by
  unfold learn
  rw [Int.toNat_of_nonpos h]
  rfl

/-- Witness for C10 at `max_cycles = -2` on a concrete network. -/
theorem C10_learn_no_cycles_witness :
    ((-2 : Int) ≤ 0) ∧
    learn env0 cnet5 [Input.inputNew [5, 6] none] 1 "g" (-2) 1 1 1 .Sigmoid []
      = finishWrite cnet5 [] (writeModel env0.fmt env0.wrng 0 env0.wfuel [] cnet5 "g") :=
  ⟨by decide, C10_learn_no_cycles env0 cnet5 [Input.inputNew [5, 6] none] 1 "g" (-2) 1 1 1 .Sigmoid [] (by decide)⟩

/-! ## C8: `write_model` collision handling -/

theorem writeModel_ok_spec (fmt : ℚ → List Char) (rng : Nat → Nat) :
    ∀ (fuel idx : Nat) (fs : FS) (net : Network) (name mname : String) (fs' : FS),
    writeModel fmt rng idx fuel fs net name = some (.ok mname, fs') →
    List.lookup mname fs = none ∧
    (∃ content, serializeNet fmt net = some content ∧ fs' = (mname, content) :: fs) ∧
    (∃ k, k < fuel ∧ mname = mkModelName name (rng (idx + k) % 2 ^ 32) ∧
      ∀ j, j < k → (List.lookup (mkModelName name (rng (idx + j) % 2 ^ 32)) fs).isSome = true) := by
  intro fuel
  induction fuel with
  | zero => intro idx fs net name mname fs' h; exact absurd h (by simp [writeModel])
  | succ fuel ih =>
    intro idx fs net name mname fs' h
    rw [writeModel] at h
    by_cases hc : (List.lookup (mkModelName name (rng idx % 2 ^ 32)) fs).isSome = true
    · rw [if_pos hc] at h
      obtain ⟨h1, h2, k, hk, hk2, hk3⟩ := ih (idx + 1) fs net name mname fs' h
      refine ⟨h1, h2, k + 1, by omega, by rw [hk2]; ring_nf, ?_⟩
      intro j hj
      cases j with
      | zero => simpa using hc
      | succ j =>
        have := hk3 j (by omega)
        have harg : idx + 1 + j = idx + (j + 1) := by ring
        rwa [harg] at this
    · rw [if_neg hc] at h
      cases hs : serializeNet fmt net with
      | none => rw [hs] at h; simp at h
      | some content =>
        rw [hs] at h
        simp only [Option.some.injEq, Prod.mk.injEq, RunRes.ok.injEq] at h
        obtain ⟨hm, hfs⟩ := h
        subst hm
        refine ⟨Option.not_isSome_iff_eq_none.mp hc, ⟨content, rfl, hfs.symm⟩,
          0, by omega, by simp, by omega⟩

/-- C8: whenever `write_model` succeeds with name `mname`, that name did
not exist beforehand (nothing is overwritten: the new file is prepended and
every prior file keeps its content), the name has the form
`model_<name>_<u32>.darj`, and the suffix is the first of the consecutive
random draws whose name was not already taken (every earlier draw collided
and was retried). -/
theorem C8_write_model_no_overwrite (fmt : ℚ → List Char) (rng : Nat → Nat)
    (fuel idx : Nat) (fs : FS) (net : Network) (name mname : String) (fs' : FS)
    (h : writeModel fmt rng idx fuel fs net name = some (.ok mname, fs')) :
    List.lookup mname fs = none ∧
    (∃ u, u < 2 ^ 32 ∧ mname = mkModelName name u) ∧
    (∀ nm c, List.lookup nm fs = some c → List.lookup nm fs' = some c) ∧
    (∃ k, k < fuel ∧ mname = mkModelName name (rng (idx + k) % 2 ^ 32) ∧
      ∀ j, j < k → (List.lookup (mkModelName name (rng (idx + j) % 2 ^ 32)) fs).isSome = true) := by
  obtain ⟨h1, ⟨content, _, hfs⟩, k, hk, hk2, hk3⟩ :=
    writeModel_ok_spec fmt rng fuel idx fs net name mname fs' h
  refine ⟨h1, ⟨rng (idx + k) % 2 ^ 32, Nat.mod_lt _ (by norm_num), hk2⟩, ?_, k, hk, hk2, hk3⟩
  intro nm c hnm
  rw [hfs]
  have hne : nm ≠ mname := fun he => by rw [he, h1] at hnm; exact Option.noConfusion hnm
  have hb : (nm == mname) = false := beq_eq_false_iff_ne.mpr hne
  simp [List.lookup, hb, hnm]

/-- Witness for C8: a concrete collision (suffix 7 already taken) is
retried and the write lands on the fresh suffix 8. -/
theorem C8_write_model_no_overwrite_witness :
    List.lookup (mkModelName "m" 8) fs8 = none ∧
    (∃ u, u < 2 ^ 32 ∧ mkModelName "m" 8 = mkModelName "m" u) ∧
    (∀ nm c, List.lookup nm fs8 = some c → List.lookup nm wit8fs = some c) ∧
    (∃ k, k < 2 ∧ mkModelName "m" 8 = mkModelName "m" (rng8 (0 + k) % 2 ^ 32) ∧
      ∀ j, j < k → (List.lookup (mkModelName "m" (rng8 (0 + j) % 2 ^ 32)) fs8).isSome = true) :=
  C8_write_model_no_overwrite fmtW rng8 2 0 fs8 cnet1b "m" (mkModelName "m" 8) wit8fs
    (by with_unfolding_all decide)

/-- C4 (the code violates it): on every one of the malformed files —
non-numeric bias, missing `;`-separated field, missing activation line,
empty file — `read_model` panics (unwrap / index out of bounds) instead of
returning a `ReadFailed`-style error. -/
theorem C4_read_model_panics_on_malformed :
    (readModel parseW fsBad "model_bad1.darj").isPanik = true ∧
    (readModel parseW fsBad "model_bad2.darj").isPanik = true ∧
    (readModel parseW fsBad "model_bad3.darj").isPanik = true ∧
    (readModel parseW fsBad "model_bad4.darj").isPanik = true := by decide

/-! ## C5: sensor-width mismatch in the forward pass -/

/-- C5 (the code violates it): on a sample shorter than the sensor layer
`push_downstream` hits an out-of-bounds index (a panic, `none`) instead of
reporting an error, and on a longer sample it silently ignores the extra
features and succeeds — no error value exists in its signature. -/
theorem C5_push_downstream_mismatch :
    pushDownstream actId cnet5 [Input.inputNew [5] none] 0 = none ∧
    (pushDownstream actId cnet5 [Input.inputNew [5, 6, 7] none] 0).isSome = true := by
  decide

/-! ## C1: the first epoch of `learn` -/

/-- C1 (the code violates it): with `max_cycles ≥ 1` the first epoch of
`learn` reaches the fresh-discriminator branch (`model_name` is `None`),
constructs the discriminator, and then panics evaluating
`std::fs::remove_file(model_name.unwrap())` — shown here both on an empty
sample vector and on a well-formed one, with `max_cycles` 1 and 3. -/
theorem C1_learn_first_epoch_panics :
    (learn env0 cnet5 [] 1 "g" 1 1 1 1 .Sigmoid []).1
      = .panik "called Option unwrap on a None value" ∧
    (learn env0 cnet5 [Input.inputNew [5, 6] none] 1 "g" 3 1 1 1 .Sigmoid []).1.isPanik
      = true := by decide

/-! ## Machinery: characterizing the per-layer update loops -/

theorem setIdx_of_getIdx {l : List α} {i : Nat} {a : α} (h : getIdx l i = some a) :
    setIdx l i a = l := by
  induction l generalizing i with
  | nil => rfl
  | cons b bs ih =>
    cases i with
    | zero =>
      simp only [getIdx, Option.some.injEq] at h
      simp [setIdx, h]
    | succ n =>
      simp only [getIdx] at h
      simp [setIdx, ih h]

theorem setIdx_setIdx (l : List α) (i : Nat) (a b : α) :
    setIdx (setIdx l i a) i b = setIdx l i b := by
  induction l generalizing i with
  | nil => rfl
  | cons c cs ih =>
    cases i with
    | zero => rfl
    | succ n => simp [setIdx, ih]

theorem setNode_node_array (net : Network) (L i : Nat) (nd : Node) :
    (net.setNode L i nd).node_array
      = match getIdx net.node_array L with
        | none => net.node_array
        | some layer => setIdx net.node_array L (setIdx layer i nd) := rfl

theorem setNode_answer (net : Network) (L i : Nat) (nd : Node) :
    (net.setNode L i nd).answer = net.answer := rfl

theorem setNode_sensor (net : Network) (L i : Nat) (nd : Node) :
    (net.setNode L i nd).sensor = net.sensor := rfl

theorem setNode_activation (net : Network) (L i : Nat) (nd : Node) :
    (net.setNode L i nd).activation_function = net.activation_function := rfl

theorem getLayer_setNode_ne (net : Network) (L i : Nat) (nd : Node) {L' : Nat}
    (h : L' ≠ L) :
    getIdx (net.setNode L i nd).node_array L' = getIdx net.node_array L' := by
  rw [setNode_node_array]
  cases hL : getIdx net.node_array L with
  | none => rfl
  | some layer => exact getIdx_setIdx_ne _ (fun he => h he.symm)

theorem getLayer_setNode_same {net : Network} {L : Nat} {layer : List Node}
    (i : Nat) (nd : Node) (h : getIdx net.node_array L = some layer) :
    getIdx (net.setNode L i nd).node_array L = some (setIdx layer i nd) := by
  rw [setNode_node_array, h]
  exact getIdx_setIdx_self _ (getIdx_lt_length h)

theorem getNode_setNode_self {net : Network} {L i : Nat} {nd0 : Node}
    (h : net.getNode L i = some nd0) (nd : Node) :
    (net.setNode L i nd).getNode L i = some nd := by
  unfold Network.getNode at h ⊢
  cases hL : getIdx net.node_array L with
  | none => rw [hL] at h; exact absurd h (by simp)
  | some layer =>
    rw [hL] at h
    simp only [Option.some_bind] at h
    rw [getLayer_setNode_same i nd hL]
    simp [getIdx_setIdx_self _ (getIdx_lt_length h)]

theorem getNode_setNode_ne {net : Network} (L i : Nat) (nd : Node) (L' i' : Nat)
    (h : L' ≠ L ∨ i' ≠ i) :
    (net.setNode L i nd).getNode L' i' = net.getNode L' i' := by
  unfold Network.getNode
  rcases h with h | h
  · rw [getLayer_setNode_ne net L i nd h]
  · cases hL : getIdx net.node_array L with
    | none =>
      rw [setNode_node_array, hL]
    | some layer =>
      by_cases hL' : L' = L
      · subst hL'
        rw [getLayer_setNode_same i nd hL, hL]
        simp [getIdx_setIdx_ne _ (fun he => h he.symm)]
      · rw [getLayer_setNode_ne net L i nd hL']

theorem network_fields_eq {n1 n2 : Network} (h : n1.node_array = n2.node_array)
    (hs : n1.sensor = n2.sensor) (ha : n1.answer = n2.answer)
    (hp : n1.parameters = n2.parameters)
    (hf : n1.activation_function = n2.activation_function) : n1 = n2 := by
  cases n1; cases n2; simp_all

theorem setNode_setNode (net : Network) (L i : Nat) (a b : Node) :
    (net.setNode L i a).setNode L i b = net.setNode L i b := by
  cases hL : getIdx net.node_array L with
  | none =>
    have h1 : net.setNode L i a = net := by
      unfold Network.setNode; rw [hL]
    rw [h1]
  | some layer =>
    refine network_fields_eq ?_ rfl rfl rfl rfl
    rw [setNode_node_array ((net.setNode L i a)) L i b,
      getLayer_setNode_same i a hL, setNode_node_array net L i a, hL,
      setNode_node_array net L i b, hL]
    simp [setIdx_setIdx]

theorem setNode_of_getNode {net : Network} {L i : Nat} {nd : Node}
    (h : net.getNode L i = some nd) : net.setNode L i nd = net := by
  unfold Network.getNode at h
  cases hL : getIdx net.node_array L with
  | none => rw [hL] at h; simp at h
  | some layer =>
    rw [hL] at h
    simp only [Option.some_bind] at h
    refine network_fields_eq ?_ rfl rfl rfl rfl
    rw [setNode_node_array, hL]
    show setIdx net.node_array L (setIdx layer i nd) = net.node_array
    rw [setIdx_of_getIdx h, setIdx_of_getIdx hL]

theorem setNode_eq_setLayer {net : Network} {L : Nat} {layer : List Node}
    (i : Nat) (nd : Node) (h : getIdx net.node_array L = some layer) :
    net.setNode L i nd = net.setLayer L (setIdx layer i nd) := by
  unfold Network.setNode Network.setLayer
  rw [h]

theorem optBind_some (a : α) (f : α → Option β) : (some a >>= f) = f a := rfl

theorem optBind_none (f : α → Option β) : ((none : Option α) >>= f) = none := rfl

theorem foldlM_stepAt (L : Nat) (g : Nat → Node → Option Node) :
    ∀ (post pre : List Node) (net : Network),
    getIdx net.node_array L = some (pre ++ post) →
    (List.range' pre.length post.length).foldlM (stepAt L g) net
      = (mapIdxM g pre.length post).map (fun post' => net.setLayer L (pre ++ post')) := by
  intro post
  induction post with
  | nil =>
    intro pre net h
    simp only [List.append_nil] at h
    simp only [List.range', List.foldlM, mapIdxM, Option.map_some']
    have hn : net.setLayer L (pre ++ []) = net := by
      refine network_fields_eq ?_ rfl rfl rfl rfl
      show setIdx net.node_array L (pre ++ []) = net.node_array
      rw [List.append_nil]
      exact setIdx_of_getIdx h
    rw [hn]
    rfl
  | cons nd post' ih =>
    intro pre net h
    have hnd : net.getNode L pre.length = some nd := by
      unfold Network.getNode
      rw [h]
      simp only [Option.some_bind]
      rw [getIdx_append_right]
      rfl
    rw [List.length_cons, List.range'_succ, List.foldlM_cons]
    have hstep : stepAt L g net pre.length
        = (g pre.length nd).map (fun nd' => net.setLayer L (pre ++ nd' :: post')) := by
      unfold stepAt
      rw [hnd]
      simp only [Option.some_bind]
      cases hg : g pre.length nd with
      | none => rfl
      | some nd' =>
        simp only [Option.some_bind, Option.map_some']
        rw [setNode_eq_setLayer pre.length nd' h, setIdx_append_right]
        rfl
    rw [hstep]
    cases hg : g pre.length nd with
    | none => simp [mapIdxM, hg]
    | some nd' =>
      simp only [Option.map_some', optBind_some, mapIdxM, hg, Option.some_bind]
      have harr : getIdx (net.setLayer L (pre ++ nd' :: post')).node_array L
          = some ((pre ++ [nd']) ++ post') := by
        show getIdx (setIdx net.node_array L (pre ++ nd' :: post')) L = _
        rw [getIdx_setIdx_self _ (getIdx_lt_length h)]
        simp
      have hih := ih (pre ++ [nd']) (net.setLayer L (pre ++ nd' :: post')) harr
      rw [List.length_append, List.length_cons, List.length_nil] at hih
      simp only [Nat.zero_add, Nat.add_zero] at hih ⊢
      rw [hih]
      cases hm : mapIdxM g (pre.length + 1) post' with
      | none => rfl
      | some p' =>
        simp only [Option.map_some']
        congr 1
        refine network_fields_eq ?_ rfl rfl rfl rfl
        show setIdx (setIdx net.node_array L (pre ++ nd' :: post')) L ((pre ++ [nd']) ++ p')
            = setIdx net.node_array L (pre ++ nd' :: p')
        rw [setIdx_setIdx, List.append_assoc]
        rfl

theorem backprop_sig_fold_eq (mse : ℚ) (aidx : Nat) :
    (fun (net : Network) i => do
      let nd ← net.getNode aidx i
      let nd' ← nd.computeAnswerErrSigGen mse
      some (net.setNode aidx i nd'))
    = stepAt aidx (fun _ nd => nd.computeAnswerErrSigGen mse) := rfl

theorem backprop_adjust_fold_eq (rate : ℚ) (aidx : Nat) :
    (fun (net : Network) i => do
      let nd ← net.getNode aidx i
      let nd' ← nd.adjustWeights rate
      some (net.setNode aidx i nd'))
    = stepAt aidx (fun _ nd => nd.adjustWeights rate) := rfl

theorem ref_sig_fold_eq (nlayer : List Node) (H : Nat) :
    (fun (net : Network) k => do
      let nd ← net.getNode H k
      let nd' ← refNodeSig nlayer k nd
      some (net.setNode H k nd'))
    = stepAt H (refNodeSig nlayer) := rfl

theorem mapIdxM_const (G : Node → Option Node) :
    ∀ (k : Nat) (l : List Node), mapIdxM (fun _ nd => G nd) k l = l.mapM G := by
  intro k l
  induction l generalizing k with
  | nil => rfl
  | cons nd nds ih =>
    simp only [mapIdxM, List.mapM_cons, ih]
    cases G nd with
    | none => rfl
    | some a =>
      show (nds.mapM G).map (fun nds' => a :: nds') = _
      cases nds.mapM G <;> rfl

theorem mapIdxM_some_getIdx {g : Nat → Node → Option Node} :
    ∀ {l l' : List Node} {k : Nat}, mapIdxM g k l = some l' →
    l'.length = l.length ∧
    ∀ j, getIdx l' j = (getIdx l j).bind (fun nd => g (k + j) nd) := by
  intro l
  induction l with
  | nil =>
    intro l' k h
    simp only [mapIdxM, Option.some.injEq] at h
    subst h
    exact ⟨rfl, fun j => rfl⟩
  | cons nd nds ih =>
    intro l' k h
    simp only [mapIdxM] at h
    cases hg : g k nd with
    | none => rw [hg] at h; exact absurd h (by simp)
    | some nd' =>
      rw [hg] at h
      simp only [Option.some_bind] at h
      cases hm : mapIdxM g (k + 1) nds with
      | none => rw [hm] at h; exact absurd h (by simp)
      | some p' =>
        rw [hm] at h
        simp only [Option.map_some', Option.some.injEq] at h
        subst h
        obtain ⟨hlen, hget⟩ := ih hm
        refine ⟨by simp [hlen], fun j => ?_⟩
        cases j with
        | zero =>
          show some nd' = (some nd).bind (fun nd => g (k + 0) nd)
          simp [hg]
        | succ j =>
          show getIdx p' j = (getIdx nds j).bind (fun nd => g (k + (j + 1)) nd)
          rw [hget j]
          have : k + 1 + j = k + (j + 1) := by omega
          rw [this]

theorem mapIdxM_isSome {g : Nat → Node → Option Node} :
    ∀ {l : List Node} {k : Nat},
    (∀ j nd, getIdx l j = some nd → (g (k + j) nd).isSome = true) →
    (mapIdxM g k l).isSome = true := by
  intro l
  induction l with
  | nil => intro k _; rfl
  | cons nd nds ih =>
    intro k h
    have h0 : (g k nd).isSome = true := by
      have := h 0 nd rfl
      simpa using this
    simp only [mapIdxM]
    cases hg : g k nd with
    | none => rw [hg] at h0; exact absurd h0 (by simp)
    | some nd' =>
      simp only [Option.some_bind]
      have hrest : (mapIdxM g (k + 1) nds).isSome = true := by
        refine ih (fun j nd0 hj => ?_)
        have := h (j + 1) nd0 (by simpa [getIdx] using hj)
        have harg : k + (j + 1) = k + 1 + j := by omega
        rwa [harg] at this
      cases hm : mapIdxM g (k + 1) nds with
      | none => rw [hm] at hrest; exact absurd hrest (by simp)
      | some p' => rfl

theorem mapIdxM_comp (g h : Nat → Node → Option Node) :
    ∀ (l : List Node) (k : Nat),
    (mapIdxM g k l).bind (mapIdxM h k)
      = mapIdxM (fun i nd => (g i nd).bind (h i)) k l := by
  intro l
  induction l with
  | nil => intro k; rfl
  | cons nd nds ih =>
    intro k
    simp only [mapIdxM]
    cases hg : g k nd with
    | none => rfl
    | some nd' =>
      simp only [Option.some_bind]
      cases hm : mapIdxM g (k + 1) nds with
      | none =>
        simp only [Option.map_none']
        show (none : Option (List Node)) = _
        cases hh : h k nd' with
        | none => rfl
        | some x =>
          simp only [Option.some_bind]
          rw [← ih (k + 1), hm]
          rfl
      | some p' =>
        simp only [Option.map_some']
        show mapIdxM h k (nd' :: p') = _
        simp only [mapIdxM]
        cases hh : h k nd' with
        | none => rfl
        | some x =>
          simp only [Option.some_bind]
          rw [← ih (k + 1), hm]
          simp only [Option.some_bind]

theorem layerLoop_char {L : Nat} (g : Nat → Node → Option Node) {net : Network}
    {layer : List Node} (h : getIdx net.node_array L = some layer) :
    (List.range layer.length).foldlM (stepAt L g) net
      = (mapIdxM g 0 layer).map (fun layer' => net.setLayer L layer') := by
  have h0 : getIdx net.node_array L = some ([] ++ layer) := by simpa using h
  have := foldlM_stepAt L g layer [] net h0
  simpa [List.range_eq_range'] using this

theorem node_eta_err_sig {nd : Node} {a : Option ℚ} (h : nd.err_sig = a) :
    ({ nd with err_sig := a } : Node) = nd := by
  cases nd; simp_all

theorem stepAt_some {L : Nat} {g : Nat → Node → Option Node} {net net' : Network}
    {i : Nat} (h : stepAt L g net i = some net') :
    ∃ nd', net' = net.setNode L i nd' := by
  unfold stepAt at h
  cases hn : net.getNode L i with
  | none => rw [hn] at h; exact absurd h (by simp)
  | some nd =>
    rw [hn] at h
    simp only [Option.some_bind] at h
    cases hg : g i nd with
    | none => rw [hg] at h; exact absurd h (by simp)
    | some nd' =>
      rw [hg] at h
      simp only [Option.some_bind, Option.some.injEq] at h
      exact ⟨nd', h.symm⟩

theorem foldlM_congr_inv (P : Network → Prop) (f f' : Network → Nat → Option Network) :
    ∀ (l : List Nat) (net : Network), P net →
    (∀ net' i net'', i ∈ l → P net' → f' net' i = some net'' → P net'') →
    (∀ net' i, i ∈ l → P net' → f net' i = f' net' i) →
    l.foldlM f net = l.foldlM f' net := by
  intro l
  induction l with
  | nil => intro net _ _ _; rfl
  | cons i is ih =>
    intro net hp hP hff
    rw [List.foldlM_cons, List.foldlM_cons, hff net i (List.mem_cons_self i is) hp]
    cases hf : f' net i with
    | none => rfl
    | some net' =>
      simp only [optBind_some]
      exact ih net' (hP net i net' (List.mem_cons_self i is) hp hf)
        (fun n j n2 hj => hP n j n2 (List.mem_cons_of_mem i hj))
        (fun n j hj => hff n j (List.mem_cons_of_mem i hj))

theorem nextLoop_fold (H k : Nat) (nlayer : List Node) :
    ∀ (post pre : List Node) (net : Network) (nd : Node) (a : ℚ) (terms : List ℚ),
    pre ++ post = nlayer →
    (∀ m ∈ post, (getIdx m.link_weights k).isSome = true ∧ m.err_sig.isSome = true) →
    getIdx net.node_array (H + 1) = some nlayer →
    net.getNode H k = some nd →
    nd.err_sig = some a →
    post.mapM (fun (m : Node) => m.err_sig.bind (fun s =>
        (getIdx m.link_weights k).map (fun w => s * w))) = some terms →
    (List.range' pre.length post.length).foldlM (nextLoopStep H k) net
      = some (net.setNode H k { nd with err_sig := some (a + terms.sum) }) := by
  intro post
  induction post with
  | nil =>
    intro pre net nd a terms _ _ _ hnd hsig hterms
    simp only [List.mapM_nil, pure, Option.some.injEq] at hterms
    subst hterms
    simp only [List.range', List.foldlM, List.sum_nil]
    have : ({ nd with err_sig := some (a + 0) } : Node) = nd := by
      rw [show a + 0 = a from by ring]
      exact node_eta_err_sig hsig
    rw [this, setNode_of_getNode hnd]
    rfl
  | cons m post' ih =>
    intro pre net nd a terms happ hpost hH hnd hsig hterms
    obtain ⟨hm, hpost'⟩ : ((getIdx m.link_weights k).isSome = true ∧ m.err_sig.isSome = true) ∧
        ∀ m' ∈ post', (getIdx m'.link_weights k).isSome = true ∧ m'.err_sig.isSome = true := by
      constructor
      · exact hpost m (List.mem_cons_self m post')
      · exact fun m' hm' => hpost m' (List.mem_cons_of_mem m hm')
    cases hw : getIdx m.link_weights k with
    | none => rw [hw] at hm; exact absurd hm.1 (by simp)
    | some w =>
    cases hs : m.err_sig with
    | none => rw [hs] at hm; exact absurd hm.2 (by simp)
    | some s =>
    rw [List.mapM_cons, hs, hw] at hterms
    simp only [Option.some_bind, Option.map_some', optBind_some] at hterms
    cases hts : post'.mapM (fun (m : Node) => m.err_sig.bind (fun s =>
        (getIdx m.link_weights k).map (fun w => s * w))) with
    | none =>
      rw [hts] at hterms
      exact absurd hterms (by simp)
    | some ts =>
      rw [hts] at hterms
      simp only [Option.some_bind, Option.map_some', optBind_some, pure,
        Option.some.injEq] at hterms
      subst hterms
      have hmnode : net.getNode (H + 1) pre.length = some m := by
        unfold Network.getNode
        rw [hH, ← happ]
        simp only [Option.some_bind]
        rw [getIdx_append_right]
        rfl
      have hstep : nextLoopStep H k net pre.length
          = some (net.setNode H k { nd with err_sig := some (a + s * w) }) := by
        unfold nextLoopStep
        rw [hmnode]
        simp only [optBind_some, hw, hs]
        simp only [Option.isNone_some, Bool.false_eq_true, if_false, hmnode]
        simp only [optBind_some, hs, hnd, hsig]
      rw [List.length_cons, List.range'_succ, List.foldlM_cons, hstep]
      simp only [optBind_some]
      have hnd1 : (net.setNode H k { nd with err_sig := some (a + s * w) }).getNode H k
          = some { nd with err_sig := some (a + s * w) } :=
        getNode_setNode_self hnd _
      have hH1 : getIdx (net.setNode H k { nd with err_sig := some (a + s * w) }).node_array (H + 1)
          = some nlayer := by
        rw [getLayer_setNode_ne _ _ _ _ (by omega)]
        exact hH
      have hih := ih (pre ++ [m]) (net.setNode H k { nd with err_sig := some (a + s * w) })
        { nd with err_sig := some (a + s * w) } (a + s * w) ts
        (by rw [List.append_assoc]; simpa using happ) hpost' hH1 hnd1 rfl hts
      rw [List.length_append, List.length_cons, List.length_nil] at hih
      simp only [Nat.zero_add, Nat.add_zero] at hih ⊢
      rw [hih, setNode_setNode]
      have hval : a + s * w + ts.sum = a + (s * w :: ts).sum := by
        rw [List.sum_cons]; ring
      rw [show ({ ({ nd with err_sig := some (a + s * w) } : Node) with
            err_sig := some (a + s * w + ts.sum) } : Node)
          = { nd with err_sig := some (a + s * w + ts.sum) } from rfl, hval]

theorem mapM_isSome_of_forall {β : Type} {f : Node → Option β} :
    ∀ {l : List Node}, (∀ m ∈ l, (f m).isSome = true) → (l.mapM f).isSome = true := by
  intro l
  induction l with
  | nil => intro _; rfl
  | cons m ms ih =>
    intro h
    rw [List.mapM_cons]
    cases hf : f m with
    | none =>
      have := h m (List.mem_cons_self m ms)
      rw [hf] at this; exact absurd this (by simp)
    | some v =>
      simp only [optBind_some]
      cases hm : ms.mapM f with
      | none =>
        have := ih (fun x hx => h x (List.mem_cons_of_mem m hx))
        rw [hm] at this; exact absurd this (by simp)
      | some vs => rfl

theorem hiddenNodeStep_char (rate : ℚ) (H k : Nat) (net : Network) (nlayer : List Node)
    (hH : getIdx net.node_array (H + 1) = some nlayer)
    (hwk : ∀ m ∈ nlayer, (getIdx m.link_weights k).isSome = true ∧ m.err_sig.isSome = true) :
    hiddenNodeStep rate H net k = stepAt H (hiddenNodeFun rate nlayer) net k := by
  cases hnd : net.getNode H k with
  | none =>
    unfold hiddenNodeStep stepAt
    rw [hnd]
    rfl
  | some nd0 =>
    have htermsS : (nlayer.mapM (fun (m : Node) => m.err_sig.bind (fun s =>
        (getIdx m.link_weights k).map (fun w => s * w)))).isSome = true := by
      refine mapM_isSome_of_forall (fun m hm => ?_)
      obtain ⟨hw, hs⟩ := hwk m hm
      cases hwv : getIdx m.link_weights k with
      | none => rw [hwv] at hw; exact absurd hw (by simp)
      | some w =>
        cases hsv : m.err_sig with
        | none => rw [hsv] at hs; exact absurd hs (by simp)
        | some s => simp [hsv, hwv]
    obtain ⟨terms, hterms⟩ := Option.isSome_iff_exists.mp htermsS
    have hsum : specHiddenSigSum nlayer k = some terms.sum := by
      unfold specHiddenSigSum
      rw [hterms]
      rfl
    have h1 : getIdx (net.setNode H k { nd0 with err_sig := some 0 }).node_array (H + 1)
        = some nlayer := by
      rw [getLayer_setNode_ne _ _ _ _ (by omega)]
      exact hH
    have h2 : (net.setNode H k { nd0 with err_sig := some 0 }).getNode H k
        = some { nd0 with err_sig := some 0 } := getNode_setNode_self hnd _
    have hfold := nextLoop_fold H k nlayer nlayer []
      (net.setNode H k { nd0 with err_sig := some 0 })
      ({ nd0 with err_sig := some 0 }) 0 terms (by simp) hwk h1 h2 rfl hterms
    simp only [List.length_nil] at hfold
    unfold hiddenNodeStep
    rw [hnd]
    simp only [optBind_some, h1, List.range_eq_range']
    rw [hfold, setNode_setNode]
    simp only [optBind_some]
    have h3 : (net.setNode H k { nd0 with err_sig := some (0 + terms.sum) }).getNode H k
        = some { nd0 with err_sig := some (0 + terms.sum) } := getNode_setNode_self hnd _
    rw [h3]
    simp only [optBind_some]
    unfold stepAt hiddenNodeFun
    rw [hnd]
    simp only [Option.some_bind, hsum, optBind_some]
    cases ho : nd0.cached_output with
    | none => rfl
    | some o =>
      simp only [optBind_some, setNode_setNode]
      rw [show (0 : ℚ) + terms.sum = terms.sum from by ring]
      have h4 : (net.setNode H k
            { link_weights := nd0.link_weights, link_vals := nd0.link_vals,
              links := nd0.links, b_weight := nd0.b_weight, cached_output := some o,
              err_sig := some (terms.sum * o * (1 - o)), category := nd0.category,
              correct_answer := nd0.correct_answer }).getNode H k
          = some { link_weights := nd0.link_weights, link_vals := nd0.link_vals,
                   links := nd0.links, b_weight := nd0.b_weight,
                   cached_output := some o,
                   err_sig := some (terms.sum * o * (1 - o)),
                   category := nd0.category,
                   correct_answer := nd0.correct_answer } := getNode_setNode_self hnd _
      rw [h4]
      simp only [optBind_some]
      cases ha : Node.adjustWeights rate
          { link_weights := nd0.link_weights, link_vals := nd0.link_vals,
            links := nd0.links, b_weight := nd0.b_weight, cached_output := some o,
            err_sig := some (terms.sum * o * (1 - o)), category := nd0.category,
            correct_answer := nd0.correct_answer } with
      | none => rfl
      | some adj => rfl

theorem mem_of_getIdx {l : List α} {i : Nat} {a : α} (h : getIdx l i = some a) :
    a ∈ l := by
  induction l generalizing i with
  | nil => exact absurd h (by simp [getIdx])
  | cons b bs ih =>
    cases i with
    | zero =>
      simp only [getIdx, Option.some.injEq] at h
      exact h ▸ List.mem_cons_self b bs
    | succ n => exact List.mem_cons_of_mem b (ih h)

theorem getIdx_of_mem {l : List α} {a : α} (h : a ∈ l) :
    ∃ i, getIdx l i = some a := by
  induction l with
  | nil => simp at h
  | cons b bs ih =>
    rcases List.mem_cons.mp h with h | h
    · exact ⟨0, by simp [getIdx, h]⟩
    · obtain ⟨i, hi⟩ := ih h
      exact ⟨i + 1, by simpa [getIdx] using hi⟩

theorem getIdx_isSome_of_lt {l : List α} {i : Nat} (h : i < l.length) :
    (getIdx l i).isSome = true := by
  induction l generalizing i with
  | nil => simp at h
  | cons b bs ih =>
    cases i with
    | zero => rfl
    | succ n => simpa [getIdx] using ih (by simpa using h)

theorem mapM_id_isSome {l : List (Option ℚ)} (h : ∀ v ∈ l, v.isSome = true) :
    (l.mapM id).isSome = true := by
  induction l with
  | nil => rfl
  | cons v vs ih =>
    rw [List.mapM_cons]
    cases hv : v with
    | none =>
      have := h v (List.mem_cons_self v vs)
      rw [hv] at this; exact absurd this (by simp)
    | some q =>
      simp only [id, optBind_some]
      cases hm : vs.mapM id with
      | none =>
        have := ih (fun x hx => h x (List.mem_cons_of_mem v hx))
        rw [hm] at this; exact absurd this (by simp)
      | some qs => rfl

theorem adjustWeights_isSome {rate : ℚ} {nd : Node} (hs : nd.err_sig.isSome = true)
    (hv : ∀ v ∈ nd.link_vals, v.isSome = true) (hb : nd.b_weight.isSome = true) :
    (nd.adjustWeights rate).isSome = true := by
  unfold Node.adjustWeights
  cases hse : nd.err_sig with
  | none => rw [hse] at hs; exact absurd hs (by simp)
  | some s =>
    simp only [optBind_some]
    have := mapM_id_isSome hv
    cases hm : nd.link_vals.mapM id with
    | none => rw [hm] at this; exact absurd this (by simp)
    | some vals =>
      simp only [optBind_some]
      cases hbv : nd.b_weight with
      | none => rw [hbv] at hb; exact absurd hb (by simp)
      | some b => rfl

theorem adjustWeights_err_sig {rate : ℚ} {nd nd' : Node}
    (h : nd.adjustWeights rate = some nd') : nd'.err_sig = nd.err_sig := by
  unfold Node.adjustWeights at h
  cases hse : nd.err_sig with
  | none => rw [hse] at h; exact absurd h (by simp)
  | some s =>
    rw [hse] at h
    simp only [optBind_some] at h
    cases hm : nd.link_vals.mapM id with
    | none => rw [hm] at h; exact absurd h (by simp)
    | some vals =>
      rw [hm] at h
      simp only [optBind_some] at h
      cases hbv : nd.b_weight with
      | none => rw [hbv] at h; exact absurd h (by simp)
      | some b =>
        rw [hbv] at h
        simp only [optBind_some, Option.some.injEq] at h
        subst h
        simp [hse]

theorem hiddenNodeFun_eq_ref (rate : ℚ) (nlayer : List Node) (k : Nat) (nd : Node) :
    hiddenNodeFun rate nlayer k nd
      = (refNodeSig nlayer k nd).bind (fun nd' => nd'.adjustWeights rate) := by
  unfold hiddenNodeFun refNodeSig
  cases specHiddenSigSum nlayer k with
  | none => rfl
  | some s =>
    cases nd.cached_output with
    | none => rfl
    | some o => rfl

theorem setLayer_get_same {net : Network} {L : Nat} (X : List Node)
    (h : L < net.node_array.length) :
    getIdx (net.setLayer L X).node_array L = some X :=
  getIdx_setIdx_self _ h

theorem setLayer_get_ne (net : Network) (L : Nat) (X : List Node) {L' : Nat}
    (h : L' ≠ L) :
    getIdx (net.setLayer L X).node_array L' = getIdx net.node_array L' :=
  getIdx_setIdx_ne _ (fun he => h he.symm)

theorem setLayer_setLayer (net : Network) (L : Nat) (X Y : List Node) :
    (net.setLayer L X).setLayer L Y = net.setLayer L Y := by
  refine network_fields_eq ?_ rfl rfl rfl rfl
  exact setIdx_setIdx _ _ _ _

theorem setLayer_answer (net : Network) (L : Nat) (X : List Node) :
    (net.setLayer L X).answer = net.answer := rfl

theorem setLayer_length (net : Network) (L : Nat) (X : List Node) :
    (net.setLayer L X).node_array.length = net.node_array.length :=
  length_setIdx _ _ _

theorem optBind_pure (x : Option α) : (x >>= pure) = x := by
  cases x <;> rfl

theorem optPure_bind (a : α) (f : α → Option β) : (pure a >>= f) = f a := rfl

theorem pure_eq_some (a : α) : (pure a : Option α) = some a := rfl

theorem compute_sig_fields {mse : ℚ} {m m' : Node}
    (h : m.computeAnswerErrSigGen mse = some m') :
    ∃ o, m.cached_output = some o ∧
      m' = { m with err_sig := some (mse * o * (1 - o)) } := by
  unfold Node.computeAnswerErrSigGen at h
  cases hc : m.cached_output with
  | none => rw [hc] at h; exact absurd h (by simp)
  | some o =>
    rw [hc] at h
    simp only [Option.map_some', Option.some.injEq] at h
    exact ⟨o, rfl, h.symm⟩

theorem wf_node_at {net : Network} (hWf : net.Wf) {i : Nat} {layer : List Node}
    (hl : getIdx net.node_array i = some layer) {nd : Node} (hnd : nd ∈ layer) :
    nd.wfIn (if i = 0 then 0 else ((getIdx net.node_array (i - 1)).getD []).length) := by
  refine hWf.2.2.2 i (getIdx_lt_length hl) nd ?_
  rw [hl]
  exact hnd

theorem backprop_one_hidden_char (rate mse : ℚ) (net : Network)
    (hWf : net.Wf) (hlen : net.node_array.length = 3)
    (hc : net.AllCached) (hv : net.AllVals) :
    ∃ L1 L2 L2s L1h L2a,
      getIdx net.node_array 1 = some L1 ∧
      getIdx net.node_array 2 = some L2 ∧
      L2.mapM (fun nd => nd.computeAnswerErrSigGen mse) = some L2s ∧
      mapIdxM (hiddenNodeFun rate L2s) 0 L1 = some L1h ∧
      L2s.mapM (fun nd => nd.adjustWeights rate) = some L2a ∧
      backpropogate rate 1 mse net
        = some (((net.setLayer 2 L2s).setLayer 1 L1h).setLayer 2 L2a) ∧
      refBackprop rate 1 mse net
        = some (((net.setLayer 2 L2s).setLayer 1 L1h).setLayer 2 L2a) := by
  have hans2 : net.answer = some 2 := by rw [hWf.2.2.1, hlen]
  obtain ⟨L1, hL1⟩ := Option.isSome_iff_exists.mp
    (getIdx_isSome_of_lt (l := net.node_array) (i := 1) (by omega))
  obtain ⟨L2, hL2⟩ := Option.isSome_iff_exists.mp
    (getIdx_isSome_of_lt (l := net.node_array) (i := 2) (by omega))
  have hcL2 : ∀ nd ∈ L2, nd.cached_output.isSome = true :=
    fun nd h => hc L2 (mem_of_getIdx hL2) nd h
  have hcL1 : ∀ nd ∈ L1, nd.cached_output.isSome = true :=
    fun nd h => hc L1 (mem_of_getIdx hL1) nd h
  have hvL2 : ∀ nd ∈ L2, ∀ v ∈ nd.link_vals, v.isSome = true :=
    fun nd h => hv L2 (mem_of_getIdx hL2) nd h
  have hvL1 : ∀ nd ∈ L1, ∀ v ∈ nd.link_vals, v.isSome = true :=
    fun nd h => hv L1 (mem_of_getIdx hL1) nd h
  have hwfL2 : ∀ nd ∈ L2, nd.wfIn L1.length := by
    intro nd hnd
    have := wf_node_at hWf hL2 hnd
    simpa [hL1] using this
  have hwfL1 : ∀ nd ∈ L1, nd.b_weight.isSome = true := by
    intro nd hnd
    exact (wf_node_at hWf hL1 hnd).2.2.2
  -- Phase A: answer-layer error signals
  obtain ⟨L2s, hL2s⟩ := Option.isSome_iff_exists.mp
    (mapM_isSome_of_forall (l := L2) (f := fun nd => nd.computeAnswerErrSigGen mse)
      (by
        intro m hm
        obtain ⟨o, ho⟩ := Option.isSome_iff_exists.mp (hcL2 m hm)
        simp [Node.computeAnswerErrSigGen, ho]))
  have hL2sIdx : mapIdxM (fun _ nd => nd.computeAnswerErrSigGen mse) 0 L2 = some L2s := by
    rw [mapIdxM_const]; exact hL2s
  obtain ⟨hL2slen, hL2sget⟩ := mapIdxM_some_getIdx hL2sIdx
  have hL2sfields : ∀ m' ∈ L2s, ∃ m o, m ∈ L2 ∧ m.cached_output = some o ∧
      m' = { m with err_sig := some (mse * o * (1 - o)) } := by
    intro m' hm'
    obtain ⟨j, hj⟩ := getIdx_of_mem hm'
    have := hL2sget j
    rw [hj] at this
    cases hmj : getIdx L2 j with
    | none => rw [hmj] at this; exact absurd this.symm (by simp)
    | some m =>
      rw [hmj] at this
      simp only [Option.some_bind] at this
      obtain ⟨o, ho, hform⟩ := compute_sig_fields this.symm
      exact ⟨m, o, mem_of_getIdx hmj, ho, hform⟩
  have hwkL2s : ∀ i, i < L1.length →
      ∀ m ∈ L2s, (getIdx m.link_weights i).isSome = true ∧ m.err_sig.isSome = true := by
    intro i hi m' hm'
    obtain ⟨m, o, hmem, ho, hform⟩ := hL2sfields m' hm'
    subst hform
    constructor
    · have hwlen : m.link_weights.length = L1.length := ((hwfL2 m hmem).2.1)
      show (getIdx m.link_weights i).isSome = true
      exact getIdx_isSome_of_lt (by omega)
    · rfl
  -- Phase B: the hidden-layer pass as a pure per-node map
  have hL1hS : (mapIdxM (hiddenNodeFun rate L2s) 0 L1).isSome = true := by
    refine mapIdxM_isSome ?_
    intro j nd hj
    simp only [Nat.zero_add]
    have hjlt : j < L1.length := getIdx_lt_length hj
    have hndmem := mem_of_getIdx hj
    have hsum : (specHiddenSigSum L2s j).isSome = true := by
      unfold specHiddenSigSum
      have hms : (L2s.mapM (fun (m : Node) => m.err_sig.bind (fun s =>
          (getIdx m.link_weights j).map (fun w => s * w)))).isSome = true := by
        refine mapM_isSome_of_forall ?_
        intro m hm
        obtain ⟨hw, hs⟩ := hwkL2s j hjlt m hm
        obtain ⟨w, hwv⟩ := Option.isSome_iff_exists.mp hw
        obtain ⟨sv, hsv⟩ := Option.isSome_iff_exists.mp hs
        simp [hsv, hwv]
      cases hmm : L2s.mapM (fun (m : Node) => m.err_sig.bind (fun s =>
          (getIdx m.link_weights j).map (fun w => s * w))) with
      | none => rw [hmm] at hms; exact absurd hms (by simp)
      | some ts => rfl
    obtain ⟨S, hS⟩ := Option.isSome_iff_exists.mp hsum
    obtain ⟨o, ho⟩ := Option.isSome_iff_exists.mp (hcL1 nd hndmem)
    unfold hiddenNodeFun
    rw [hS]
    simp only [optBind_some, ho]
    exact adjustWeights_isSome rfl (by simpa using hvL1 nd hndmem) (hwfL1 nd hndmem)
  obtain ⟨L1h, hL1h⟩ := Option.isSome_iff_exists.mp hL1hS
  -- Phase C: the answer-layer adjustment
  have hL2aS : (L2s.mapM (fun (nd : Node) => nd.adjustWeights rate)).isSome = true := by
    refine mapM_isSome_of_forall ?_
    intro m' hm'
    obtain ⟨m, o, hmem, ho, hform⟩ := hL2sfields m' hm'
    subst hform
    exact adjustWeights_isSome rfl (by simpa using hvL2 m hmem) ((hwfL2 m hmem).2.2.2)
  obtain ⟨L2a, hL2a⟩ := Option.isSome_iff_exists.mp hL2aS
  have h2lt : 2 < net.node_array.length := by omega
  have hL1n : getIdx (net.setLayer 2 L2s).node_array 1 = some L1 := by
    rw [setLayer_get_ne net 2 L2s (by omega)]
    exact hL1
  have hL2n1 : getIdx (net.setLayer 2 L2s).node_array 2 = some L2s :=
    setLayer_get_same L2s h2lt
  have hL2n2 : getIdx ((net.setLayer 2 L2s).setLayer 1 L1h).node_array 2 = some L2s := by
    rw [setLayer_get_ne _ 1 L1h (by omega)]
    exact hL2n1
  have hcongr : (List.range L1.length).foldlM (hiddenNodeStep rate 1) (net.setLayer 2 L2s)
      = (List.range L1.length).foldlM (stepAt 1 (hiddenNodeFun rate L2s))
          (net.setLayer 2 L2s) := by
    refine foldlM_congr_inv (fun n => getIdx n.node_array 2 = some L2s) _ _
      (List.range L1.length) (net.setLayer 2 L2s) hL2n1 ?_ ?_
    · intro n' i n'' _ hp hst
      obtain ⟨nd', rfl⟩ := stepAt_some hst
      rw [getLayer_setNode_ne _ _ _ _ (by omega)]
      exact hp
    · intro n' i hi hp
      exact hiddenNodeStep_char rate 1 i n' L2s hp
        (hwkL2s i (List.mem_range.mp hi))
  refine ⟨L1, L2, L2s, L1h, L2a, hL1, hL2, hL2s, hL1h, hL2a, ?_, ?_⟩
  · -- the source backpropogate
    unfold backpropogate
    rw [hans2]
    simp only [optBind_some]
    rw [hL2]
    simp only [optBind_some]
    rw [backprop_sig_fold_eq mse 2, layerLoop_char _ hL2, mapIdxM_const, hL2s]
    simp only [Option.map_some', optBind_some]
    unfold adjustHiddenWeights
    rw [show List.range' 1 1 = [1] from rfl, List.foldlM_cons]
    rw [hL1n]
    simp only [optBind_some]
    rw [hcongr, layerLoop_char _ hL1n, hL1h]
    simp only [Option.map_some', optBind_some, List.foldlM_nil, optPure_bind, pure_eq_some, Option.some_bind]
    rw [show ((net.setLayer 2 L2s).setLayer 1 L1h).answer = some 2 from hans2]
    simp only [optBind_some]
    rw [hL2n2]
    simp only [optBind_some]
    rw [backprop_adjust_fold_eq rate 2, layerLoop_char _ hL2n2, mapIdxM_const, hL2a]
    rfl
  · -- the reference two-phase backpropagation
    unfold refBackprop refComputeSigs refAdjustAll
    rw [hans2]
    simp only [optBind_some]
    rw [hL2]
    simp only [optBind_some]
    rw [backprop_sig_fold_eq mse 2, layerLoop_char _ hL2, mapIdxM_const, hL2s]
    simp only [Option.map_some', optBind_some]
    rw [show (List.range' 1 1).reverse = [1] from rfl, List.foldlM_cons]
    rw [show (1 : Nat) + 1 = 2 from rfl, hL2n1]
    simp only [optBind_some]
    rw [hL1n]
    simp only [optBind_some]
    have hcomp : (mapIdxM (refNodeSig L2s) 0 L1).bind
        (mapIdxM (fun _ nd => nd.adjustWeights rate) 0) = some L1h := by
      rw [mapIdxM_comp]
      rw [show (fun (i : Nat) (nd : Node) =>
            (refNodeSig L2s i nd).bind (fun nd' => nd'.adjustWeights rate))
          = hiddenNodeFun rate L2s from
        funext (fun i => funext (fun nd => (hiddenNodeFun_eq_ref rate L2s i nd).symm))]
      exact hL1h
    cases hL1s : mapIdxM (refNodeSig L2s) 0 L1 with
    | none => rw [hL1s] at hcomp; exact absurd hcomp (by simp)
    | some L1s =>
      rw [hL1s] at hcomp
      simp only [Option.some_bind] at hcomp
      rw [ref_sig_fold_eq L2s 1, layerLoop_char _ hL1n, hL1s]
      simp only [Option.map_some', optBind_some, List.foldlM_nil, optPure_bind, pure_eq_some, Option.some_bind]
      have hL1sn : getIdx ((net.setLayer 2 L2s).setLayer 1 L1s).node_array 1 = some L1s :=
        setLayer_get_same L1s (by
          rw [setLayer_length]
          omega)
      rw [show List.range' 1 1 = [1] from rfl, List.foldlM_cons]
      rw [hL1sn]
      simp only [optBind_some]
      rw [backprop_adjust_fold_eq rate 1, layerLoop_char _ hL1sn, mapIdxM_const]
      rw [show L1s.mapM (fun (nd : Node) => nd.adjustWeights rate) = some L1h from by
        rw [← mapIdxM_const (fun (nd : Node) => nd.adjustWeights rate) 0 L1s]
        exact hcomp]
      simp only [Option.map_some', optBind_some, List.foldlM_nil, optPure_bind, pure_eq_some, Option.some_bind]
      rw [setLayer_setLayer]
      rw [show (((net.setLayer 2 L2s).setLayer 1 L1h)).answer = some 2 from hans2]
      simp only [optBind_some]
      rw [hL2n2]
      simp only [optBind_some]
      rw [backprop_adjust_fold_eq rate 2, layerLoop_char _ hL2n2, mapIdxM_const, hL2a]
      rfl

theorem sig_sum_transfer (mse : ℚ) (k : Nat) :
    ∀ (L Ls : List Node),
    L.mapM (fun nd => nd.computeAnswerErrSigGen mse) = some Ls →
    Ls.mapM (fun (m : Node) => m.err_sig.bind (fun s =>
        (getIdx m.link_weights k).map (fun w => s * w)))
      = L.mapM (fun (m : Node) => m.cached_output.bind (fun om =>
          (getIdx m.link_weights k).map (fun w => mse * om * (1 - om) * w))) := by
  intro L
  induction L with
  | nil =>
    intro Ls h
    simp only [List.mapM_nil, pure, Option.some.injEq] at h
    subst h
    rfl
  | cons m ms ih =>
    intro Ls h
    rw [List.mapM_cons] at h
    cases hg : m.computeAnswerErrSigGen mse with
    | none => rw [hg] at h; exact absurd h (by simp)
    | some m' =>
      rw [hg] at h
      simp only [optBind_some] at h
      cases hms : ms.mapM (fun nd => nd.computeAnswerErrSigGen mse) with
      | none => rw [hms] at h; exact absurd h (by simp)
      | some ms' =>
        rw [hms] at h
        simp only [optBind_some, pure, Option.some.injEq] at h
        subst h
        obtain ⟨o, ho, hform⟩ := compute_sig_fields hg
        subst hform
        rw [List.mapM_cons, List.mapM_cons, ih ms' hms, ho]
        rfl

theorem backprop_zero_hidden_char (rate mse : ℚ) (net : Network)
    (hWf : net.Wf) (hlen : net.node_array.length = 2)
    (hc : net.AllCached) (hv : net.AllVals) :
    ∃ L1 L1s L1a,
      getIdx net.node_array 1 = some L1 ∧
      L1.mapM (fun nd => nd.computeAnswerErrSigGen mse) = some L1s ∧
      L1s.mapM (fun (nd : Node) => nd.adjustWeights rate) = some L1a ∧
      backpropogate rate 0 mse net = some ((net.setLayer 1 L1s).setLayer 1 L1a) ∧
      refBackprop rate 0 mse net = some ((net.setLayer 1 L1s).setLayer 1 L1a) := by
  have hans2 : net.answer = some 1 := by rw [hWf.2.2.1, hlen]
  obtain ⟨L1, hL1⟩ := Option.isSome_iff_exists.mp
    (getIdx_isSome_of_lt (l := net.node_array) (i := 1) (by omega))
  have hcL1 : ∀ nd ∈ L1, nd.cached_output.isSome = true :=
    fun nd h => hc L1 (mem_of_getIdx hL1) nd h
  have hvL1 : ∀ nd ∈ L1, ∀ v ∈ nd.link_vals, v.isSome = true :=
    fun nd h => hv L1 (mem_of_getIdx hL1) nd h
  have hbL1 : ∀ nd ∈ L1, nd.b_weight.isSome = true :=
    fun nd hnd => (wf_node_at hWf hL1 hnd).2.2.2
  obtain ⟨L1s, hL1s⟩ := Option.isSome_iff_exists.mp
    (mapM_isSome_of_forall (l := L1) (f := fun nd => nd.computeAnswerErrSigGen mse)
      (by
        intro m hm
        obtain ⟨o, ho⟩ := Option.isSome_iff_exists.mp (hcL1 m hm)
        simp [Node.computeAnswerErrSigGen, ho]))
  have hL1sIdx : mapIdxM (fun _ nd => nd.computeAnswerErrSigGen mse) 0 L1 = some L1s := by
    rw [mapIdxM_const]; exact hL1s
  have hL1sfields : ∀ m' ∈ L1s, ∃ m o, m ∈ L1 ∧ m.cached_output = some o ∧
      m' = { m with err_sig := some (mse * o * (1 - o)) } := by
    intro m' hm'
    obtain ⟨j, hj⟩ := getIdx_of_mem hm'
    have := (mapIdxM_some_getIdx hL1sIdx).2 j
    rw [hj] at this
    cases hmj : getIdx L1 j with
    | none => rw [hmj] at this; exact absurd this.symm (by simp)
    | some m =>
      rw [hmj] at this
      simp only [Option.some_bind] at this
      obtain ⟨o, ho, hform⟩ := compute_sig_fields this.symm
      exact ⟨m, o, mem_of_getIdx hmj, ho, hform⟩
  obtain ⟨L1a, hL1a⟩ := Option.isSome_iff_exists.mp
    (mapM_isSome_of_forall (l := L1s) (f := fun (nd : Node) => nd.adjustWeights rate)
      (by
        intro m' hm'
        obtain ⟨m, o, hmem, ho, hform⟩ := hL1sfields m' hm'
        subst hform
        exact adjustWeights_isSome rfl (by simpa using hvL1 m hmem) (hbL1 m hmem)))
  have hL1n : getIdx (net.setLayer 1 L1s).node_array 1 = some L1s :=
    setLayer_get_same L1s (by omega)
  refine ⟨L1, L1s, L1a, hL1, hL1s, hL1a, ?_, ?_⟩
  · unfold backpropogate
    rw [hans2]
    simp only [optBind_some]
    rw [hL1]
    simp only [optBind_some]
    rw [backprop_sig_fold_eq mse 1, layerLoop_char _ hL1, mapIdxM_const, hL1s]
    simp only [Option.map_some', optBind_some]
    unfold adjustHiddenWeights
    simp only [show List.range' 1 0 = [] from rfl, List.foldlM_nil, optPure_bind,
      pure_eq_some, Option.some_bind, optBind_some]
    rw [show (net.setLayer 1 L1s).answer = some 1 from hans2]
    simp only [optBind_some]
    rw [hL1n]
    simp only [optBind_some]
    rw [backprop_adjust_fold_eq rate 1, layerLoop_char _ hL1n, mapIdxM_const, hL1a]
    rfl
  · unfold refBackprop refComputeSigs refAdjustAll
    rw [hans2]
    simp only [optBind_some]
    rw [hL1]
    simp only [optBind_some]
    rw [backprop_sig_fold_eq mse 1, layerLoop_char _ hL1, mapIdxM_const, hL1s]
    simp only [Option.map_some', optBind_some, show List.range' 1 0 = [] from rfl,
      List.reverse_nil, List.foldlM_nil, optPure_bind, pure_eq_some, Option.some_bind,
      optBind_some]
    rw [show (net.setLayer 1 L1s).answer = some 1 from hans2]
    simp only [optBind_some]
    rw [hL1n]
    simp only [optBind_some]
    rw [backprop_adjust_fold_eq rate 1, layerLoop_char _ hL1n, mapIdxM_const, hL1a]
    rfl

/-- C6 (amended): for every network with at most one hidden layer (the
counterexample below shows two or more breaks it), `backpropogate`
succeeds and produces exactly the same final link and bias weights as the
reference two-phase implementation that first computes every error signal
and only then applies every weight adjustment. -/
theorem C6_two_phase_equivalence (rate mse : ℚ) (net : Network) (hl : Nat)
    (hWf : net.Wf) (hhl : hl = net.node_array.length - 2) (hle : hl ≤ 1)
    (hc : net.AllCached) (hv : net.AllVals) :
    ∃ n1 n2, backpropogate rate hl mse net = some n1 ∧
      refBackprop rate hl mse net = some n2 ∧ netWeights n1 = netWeights n2 := by
  have hlen2 := hWf.1
  cases hl with
  | zero =>
    obtain ⟨L1, L1s, L1a, _, _, _, hbp, href⟩ :=
      backprop_zero_hidden_char rate mse net hWf (by omega) hc hv
    exact ⟨_, _, hbp, href, rfl⟩
  | succ n =>
    have hn : n = 0 := by omega
    subst hn
    obtain ⟨L1, L2, L2s, L1h, L2a, _, _, _, _, _, hbp, href⟩ :=
      backprop_one_hidden_char rate mse net hWf (by omega) hc hv
    exact ⟨_, _, hbp, href, rfl⟩

/-- Witness for C6 on a concrete 2-2-1 network in a post-forward state. -/
theorem C6_two_phase_equivalence_witness :
    ∃ n1 n2, backpropogate 1 1 1 cnet3 = some n1 ∧
      refBackprop 1 1 1 cnet3 = some n2 ∧ netWeights n1 = netWeights n2 :=
  C6_two_phase_equivalence 1 1 cnet3 1 (by decide) (by decide) (by decide)
    (by decide) (by decide)

/-- C6 counterexample: on a 1-1-1-1 network (two hidden layers, the
`hidden_layers` argument `learn` would pass is 2) both runs succeed but
the final weights differ — the source adjusts layer 1 with a zero
placeholder signal, the two-phase reference with the true signal. -/
theorem C6_counterexample :
    (backpropogate 1 2 1 cnet2).isSome = true ∧
    (refBackprop 1 2 1 cnet2).isSome = true ∧
    (backpropogate 1 2 1 cnet2).map netWeights
      ≠ (refBackprop 1 2 1 cnet2).map netWeights := by
  with_unfolding_all decide

/-- C2 (amended): for every network with exactly one hidden layer, after
`backpropogate` every hidden node's error signal equals the spec formula
`(sum over answer nodes m of error_signal(m) * weight(m→k)) * o_k * (1 - o_k)`
with the answer-layer error signals fully computed from the loss term. -/
theorem C2_hidden_error_signal (rate mse : ℚ) (net : Network)
    (hWf : net.Wf) (hlen : net.node_array.length = 3)
    (hc : net.AllCached) (hv : net.AllVals) (k : Nat) (nd0 : Node)
    (hk : net.getNode 1 k = some nd0) :
    ∃ net', backpropogate rate 1 mse net = some net' ∧
      (net'.getNode 1 k).bind Node.err_sig = specOneHiddenSig mse net k := by
  obtain ⟨L1, L2, L2s, L1h, L2a, hL1, hL2, hL2s, hL1h, hL2a, hbp, _⟩ :=
    backprop_one_hidden_char rate mse net hWf hlen hc hv
  refine ⟨_, hbp, ?_⟩
  have hgetL1 : getIdx L1 k = some nd0 := by
    unfold Network.getNode at hk
    rw [hL1] at hk
    simpa using hk
  have hklt : k < L1.length := getIdx_lt_length hgetL1
  have harr1 : getIdx (((net.setLayer 2 L2s).setLayer 1 L1h).setLayer 2 L2a).node_array 1
      = some L1h := by
    rw [setLayer_get_ne _ 2 L2a (by omega)]
    exact setLayer_get_same L1h (by rw [setLayer_length]; omega)
  have hnode : (((net.setLayer 2 L2s).setLayer 1 L1h).setLayer 2 L2a).getNode 1 k
      = getIdx L1h k := by
    unfold Network.getNode
    rw [harr1]
    rfl
  have hL1hk : getIdx L1h k = hiddenNodeFun rate L2s k nd0 := by
    have := (mapIdxM_some_getIdx hL1h).2 k
    rw [hgetL1] at this
    simpa using this
  have hsomeL1h : (getIdx L1h k).isSome = true := by
    refine getIdx_isSome_of_lt ?_
    rw [(mapIdxM_some_getIdx hL1h).1]
    omega
  obtain ⟨nda, hnda⟩ := Option.isSome_iff_exists.mp hsomeL1h
  rw [hnda] at hL1hk
  cases hS : specHiddenSigSum L2s k with
  | none =>
    rw [hiddenNodeFun, hS] at hL1hk
    exact absurd hL1hk (by simp)
  | some S =>
    rw [hiddenNodeFun, hS] at hL1hk
    simp only [optBind_some] at hL1hk
    cases ho : nd0.cached_output with
    | none => rw [ho] at hL1hk; exact absurd hL1hk (by simp)
    | some o =>
      rw [ho] at hL1hk
      simp only [optBind_some] at hL1hk
      have herr : nda.err_sig = some (S * o * (1 - o)) := by
        have := adjustWeights_err_sig hL1hk.symm
        rw [this]
      rw [hnode, hnda]
      simp only [Option.some_bind, herr]
      -- now the spec side
      unfold specOneHiddenSig
      rw [hL2]
      simp only [optBind_some]
      have htrans := sig_sum_transfer mse k L2 L2s hL2s
      have hSsum : (L2s.mapM (fun (m : Node) => m.err_sig.bind (fun s =>
          (getIdx m.link_weights k).map (fun w => s * w)))).map (fun l => l.sum)
          = some S := by
        rw [← hS]
        rfl
      cases hts : L2s.mapM (fun (m : Node) => m.err_sig.bind (fun s =>
          (getIdx m.link_weights k).map (fun w => s * w))) with
      | none => rw [hts] at hSsum; exact absurd hSsum (by simp)
      | some ts =>
        rw [hts] at hSsum htrans
        simp only [Option.map_some', Option.some.injEq] at hSsum
        rw [← htrans]
        simp only [optBind_some, hk, ho, hSsum]
        rfl

/-- Witness for C2 at node 0 of the hidden layer of a concrete 2-2-1
network in a post-forward state. -/
theorem C2_hidden_error_signal_witness :
    ∃ net', backpropogate 1 1 1 cnet3 = some net' ∧
      (net'.getNode 1 0).bind Node.err_sig = specOneHiddenSig 1 cnet3 0 :=
  C2_hidden_error_signal 1 1 cnet3 (by decide) (by decide) (by decide) (by decide) 0
    (mkNode [1/2, 1/3] [some 1, some (1/2)] (some 0) (some (1/4))) rfl

set_option maxRecDepth 4000 in
/-- C2 counterexample: on a 1-1-1-1 network with two hidden layers the
source computes error signal 0 for the node of hidden layer 1 (the next
layer's signals are still the `Some(0.0)` placeholder when it is
processed), while the fully computed signals of layer 2 — produced by
their own backward step, as the claim requires — give 1/768. -/
theorem C2_counterexample :
    (backpropogate 1 2 1 cnet2).bind (fun n => (n.getNode 1 0).bind Node.err_sig)
      = some 0 ∧
    (refComputeSigs 2 1 cnet2).bind (fun n => (n.getNode 1 0).bind Node.err_sig)
      = some (1 / 768) ∧
    (0 : ℚ) ≠ 1 / 768 := by
  with_unfolding_all decide

/-! ## C3 machinery: running the parser over serialized output -/

theorem ne_of_mem_not_mem {l kw : List Char} {c : Char} (h1 : c ∈ l) (h2 : c ∉ kw) :
    l ≠ kw := fun he => h2 (he ▸ h1)

theorem mem_icalate {c sep : Char} :
    ∀ {ls : List (List Char)}, c ∈ icalate sep ls → c = sep ∨ ∃ s ∈ ls, c ∈ s := by
  intro ls
  induction ls with
  | nil => intro h; simp [icalate] at h
  | cons x xs ih =>
    intro h
    cases xs with
    | nil =>
      simp only [icalate] at h
      exact Or.inr ⟨x, List.mem_cons_self x [], h⟩
    | cons y ys =>
      simp only [icalate] at h
      rcases List.mem_append.mp h with h | h
      · exact Or.inr ⟨x, List.mem_cons_self x (y :: ys), h⟩
      · rcases List.mem_cons.mp h with h | h
        · exact Or.inl h
        · rcases ih h with h | ⟨s, hs, hc⟩
          · exact Or.inl h
          · exact Or.inr ⟨s, List.mem_cons_of_mem x hs, hc⟩

theorem mapM_parse_fmt {parse : List Char → Option ℚ} {fmt : ℚ → List Char} :
    ∀ {ws : List ℚ}, (∀ q ∈ ws, parse (fmt q) = some q) →
    (List.map fmt ws).mapM parse = some ws := by
  intro ws
  induction ws with
  | nil => intro _; rfl
  | cons q qs ih =>
    intro h
    rw [List.map_cons, List.mapM_cons, h q (List.mem_cons_self q qs),
      ih (fun x hx => h x (List.mem_cons_of_mem q hx))]
    rfl

theorem sensor_line_chars {fmtb : List Char} (hg : GoodChars fmtb) :
    ∀ ch ∈ ';' :: fmtb, ¬ ch.isWhitespace = true := by
  intro ch hch
  rcases List.mem_cons.mp hch with h | h
  · subst h; decide
  · simp [(hg ch h).2.2]

theorem weighted_line_chars {fmt : ℚ → List Char} {ws : List ℚ} {fmtb : List Char}
    (hg : ∀ q ∈ ws, GoodChars (fmt q)) (hgb : GoodChars fmtb) :
    ∀ ch ∈ icalate ',' (ws.map fmt) ++ ';' :: fmtb, ¬ ch.isWhitespace = true := by
  intro ch hch
  rcases List.mem_append.mp hch with h | h
  · rcases mem_icalate h with h | ⟨s, hs, hc⟩
    · subst h; decide
    · obtain ⟨q, hq, rfl⟩ := List.mem_map.mp hs
      simp [(hg q hq ch hc).2.2]
  · rcases List.mem_cons.mp h with h | h
    · subst h; decide
    · simp [(hgb ch h).2.2]

theorem semi_not_in_icalate {fmt : ℚ → List Char} {ws : List ℚ}
    (hg : ∀ q ∈ ws, GoodChars (fmt q)) : ';' ∉ icalate ',' (ws.map fmt) := by
  intro h
  rcases mem_icalate h with h | ⟨s, hs, hc⟩
  · exact absurd h (by decide)
  · obtain ⟨q, hq, rfl⟩ := List.mem_map.mp hs
    exact absurd rfl (hg q hq ';' hc).2.1

theorem readStep_sensor (parse : List Char → Option ℚ) (st : PState) {b : ℚ}
    {fmtb : List Char} (harr : st.arr = []) (hpb : parse fmtb = some b)
    (hg : GoodChars fmtb) :
    readStep parse st (';' :: fmtb)
      = some { st with layer := st.layer ++ [Node.nodeNew [] (some b)] } := by
  have hsemi : ';' ∉ fmtb := fun h => absurd rfl (hg ';' h).2.1
  have htrim : trimChars (';' :: fmtb) = ';' :: fmtb :=
    trimChars_eq_self (by simpa using sensor_line_chars hg)
  have hmem : (';' : Char) ∈ ';' :: fmtb := List.mem_cons_self _ _
  unfold readStep
  rw [if_neg (ne_of_mem_not_mem hmem (by decide)),
    if_neg (ne_of_mem_not_mem hmem (by decide)),
    if_neg (ne_of_mem_not_mem hmem (by decide)),
    if_neg (ne_of_mem_not_mem hmem (by decide)),
    htrim,
    if_neg (ne_of_mem_not_mem hmem (by decide)),
    if_pos (by simp [harr])]
  have hsplit : splitOnChar ';' (';' :: fmtb) = [[], fmtb] := by
    show (match splitOnChar ';' fmtb with
      | [] => [[]]
      | s :: ss => if (';' : Char) = ';' then [] :: s :: ss else (';' :: s) :: ss) = [[], fmtb]
    rw [splitOnChar_no_sep hsemi]
    simp
  rw [hsplit]
  show (match getIdx [[], fmtb] 1 with
    | none => none
    | some bs => (parse bs).map _) = _
  simp only [getIdx, hpb, Option.map_some']

theorem readStep_weighted (parse : List Char → Option ℚ) (fmt : ℚ → List Char)
    (st : PState) {ws : List ℚ} {b : ℚ}
    (harr : st.arr ≠ []) (hws : ws ≠ [])
    (hfw : ∀ q ∈ ws, parse (fmt q) = some q ∧ GoodChars (fmt q))
    (hpb : parse (fmt b) = some b) (hgb : GoodChars (fmt b)) :
    readStep parse st (icalate ',' (ws.map fmt) ++ ';' :: fmt b)
      = some { st with layer := st.layer ++ [Node.nodeNew ws (some b)] } := by
  have hg : ∀ q ∈ ws, GoodChars (fmt q) := fun q hq => (hfw q hq).2
  have hsemiI : ';' ∉ icalate ',' (ws.map fmt) := semi_not_in_icalate hg
  have hsemiB : ';' ∉ fmt b := fun h => absurd rfl (hgb ';' h).2.1
  have hmem : (';' : Char) ∈ icalate ',' (ws.map fmt) ++ ';' :: fmt b := by
    exact List.mem_append.mpr (Or.inr (List.mem_cons_self _ _))
  have htrim : trimChars (icalate ',' (ws.map fmt) ++ ';' :: fmt b)
      = icalate ',' (ws.map fmt) ++ ';' :: fmt b :=
    trimChars_eq_self (by simpa using weighted_line_chars hg hgb)
  unfold readStep
  rw [if_neg (ne_of_mem_not_mem hmem (by decide)),
    if_neg (ne_of_mem_not_mem hmem (by decide)),
    if_neg (ne_of_mem_not_mem hmem (by decide)),
    if_neg (ne_of_mem_not_mem hmem (by decide)),
    htrim,
    if_neg (ne_of_mem_not_mem hmem (by decide)),
    if_neg (by simpa using fun h => harr (List.length_eq_zero.mp h))]
  have hsplit : splitOnChar ';' (icalate ',' (ws.map fmt) ++ ';' :: fmt b)
      = [icalate ',' (ws.map fmt), fmt b] := by
    rw [splitOnChar_append_sep hsemiI, splitOnChar_no_sep hsemiB]
  rw [hsplit]
  show (match getIdx [icalate ',' (ws.map fmt), fmt b] 1 with
    | none => none
    | some bs => _) = _
  simp only [getIdx]
  have hsplitW : splitOnChar ',' (List.headD [icalate ',' (ws.map fmt), fmt b] [])
      = ws.map fmt := by
    show splitOnChar ',' (icalate ',' (ws.map fmt)) = ws.map fmt
    refine splitOnChar_icalate (by simpa using hws) ?_
    intro s hs
    obtain ⟨q, hq, rfl⟩ := List.mem_map.mp hs
    exact fun hc => absurd rfl (hg q hq ',' hc).1
  rw [hsplitW, mapM_parse_fmt (fun q hq => (hfw q hq).1), hpb]

theorem readStep_lb (parse : List Char → Option ℚ) (st : PState) :
    readStep parse st kwLb = some ⟨st.arr ++ [st.layer], [], st.act⟩ := by
  unfold readStep
  rw [if_neg (by decide), if_neg (by decide), if_neg (by decide), if_neg (by decide),
    if_pos (by decide)]

theorem readStep_act (parse : List Char → Option ℚ) (st : PState) (af : ActivationFunction) :
    readStep parse st (fmtAct af) = some { st with act := some af } := by
  cases af <;> rfl

theorem foldlM_append_opt (f : β → α → Option β) (l1 l2 : List α) (b : β) :
    (l1 ++ l2).foldlM f b = (l1.foldlM f b).bind (fun b' => l2.foldlM f b') := by
  induction l1 generalizing b with
  | nil => simp [List.foldlM]
  | cons a as ih =>
    rw [List.cons_append, List.foldlM_cons, List.foldlM_cons]
    cases hf : f b a with
    | none => rfl
    | some b' => simp only [optBind_some, Option.some_bind, ih]

theorem nodeSig_reconNode (nd : Node) : nodeSig (reconNode nd) = nodeSig nd := rfl

theorem netEquiv_recon (net : Network) : NetEquiv net (reconNet net) := by
  constructor
  · unfold netWeights reconNet
    simp only [List.map_map]
    refine List.map_congr_left (fun layer _ => ?_)
    show layer.map nodeSig = (layer.map reconNode).map nodeSig
    rw [List.map_map]
    exact (List.map_congr_left (fun nd _ => nodeSig_reconNode nd)).symm
  · rfl

theorem fold_sensor_layer (parse : List Char → Option ℚ) (fmt : ℚ → List Char) :
    ∀ (nodes : List Node) (acc : List Node) (act : Option ActivationFunction),
    (∀ nd ∈ nodes, nd.link_weights = [] ∧
      ∃ b, nd.b_weight = some b ∧ parse (fmt b) = some b ∧ GoodChars (fmt b)) →
    ∀ lines, layerLines fmt nodes = some lines →
    lines.foldlM (readStep parse) (⟨[], acc, act⟩ : PState)
      = some ⟨[], acc ++ nodes.map reconNode, act⟩ := by
  intro nodes
  induction nodes with
  | nil =>
    intro acc act _ lines h
    simp only [layerLines, List.mapM_nil, pure, Option.some.injEq] at h
    subst h
    simp [List.foldlM]
  | cons nd nds ih =>
    intro acc act hok lines h
    obtain ⟨hwnil, b, hb, hpb, hgb⟩ := hok nd (List.mem_cons_self nd nds)
    simp only [layerLines, List.mapM_cons] at h
    cases hl0 : nodeLine fmt nd with
    | none => rw [hl0] at h; exact absurd h (by simp)
    | some line0 =>
      rw [hl0] at h
      simp only [optBind_some] at h
      cases hrest : nds.mapM (nodeLine fmt) with
      | none => rw [hrest] at h; exact absurd h (by simp)
      | some restLines =>
        rw [hrest] at h
        simp only [optBind_some, pure, Option.some.injEq] at h
        subst h
        have hline0 : line0 = ';' :: fmt b := by
          unfold nodeLine at hl0
          rw [hb] at hl0
          simp only [Option.map_some', Option.some.injEq] at hl0
          rw [← hl0, hwnil]
          rfl
        rw [List.foldlM_cons, hline0,
          readStep_sensor parse ⟨[], acc, act⟩ rfl hpb hgb]
        simp only [optBind_some]
        have := ih (acc ++ [Node.nodeNew [] (some b)]) act
          (fun x hx => hok x (List.mem_cons_of_mem nd hx)) restLines (by
            simp only [layerLines]
            exact hrest)
        rw [this]
        have hrecon : Node.nodeNew [] (some b) = reconNode nd := by
          unfold reconNode
          rw [hwnil, hb]
        rw [hrecon, List.map_cons]
        simp [List.append_assoc]

theorem fold_weighted_layer (parse : List Char → Option ℚ) (fmt : ℚ → List Char) :
    ∀ (nodes : List Node) (arr : List (List Node)) (acc : List Node)
      (act : Option ActivationFunction),
    arr ≠ [] →
    (∀ nd ∈ nodes, nd.link_weights ≠ [] ∧
      (∀ q ∈ nd.link_weights, parse (fmt q) = some q ∧ GoodChars (fmt q)) ∧
      ∃ b, nd.b_weight = some b ∧ parse (fmt b) = some b ∧ GoodChars (fmt b)) →
    ∀ lines, layerLines fmt nodes = some lines →
    lines.foldlM (readStep parse) (⟨arr, acc, act⟩ : PState)
      = some ⟨arr, acc ++ nodes.map reconNode, act⟩ := by
  intro nodes
  induction nodes with
  | nil =>
    intro arr acc act _ _ lines h
    simp only [layerLines, List.mapM_nil, pure, Option.some.injEq] at h
    subst h
    simp [List.foldlM]
  | cons nd nds ih =>
    intro arr acc act harr hok lines h
    obtain ⟨hwne, hfw, b, hb, hpb, hgb⟩ := hok nd (List.mem_cons_self nd nds)
    simp only [layerLines, List.mapM_cons] at h
    cases hl0 : nodeLine fmt nd with
    | none => rw [hl0] at h; exact absurd h (by simp)
    | some line0 =>
      rw [hl0] at h
      simp only [optBind_some] at h
      cases hrest : nds.mapM (nodeLine fmt) with
      | none => rw [hrest] at h; exact absurd h (by simp)
      | some restLines =>
        rw [hrest] at h
        simp only [optBind_some, pure, Option.some.injEq] at h
        subst h
        have hline0 : line0 = icalate ',' (nd.link_weights.map fmt) ++ ';' :: fmt b := by
          unfold nodeLine at hl0
          rw [hb] at hl0
          simp only [Option.map_some', Option.some.injEq] at hl0
          exact hl0.symm
        rw [List.foldlM_cons, hline0,
          readStep_weighted parse fmt ⟨arr, acc, act⟩ harr hwne hfw hpb hgb]
        simp only [optBind_some]
        have := ih arr (acc ++ [Node.nodeNew nd.link_weights (some b)]) act harr
          (fun x hx => hok x (List.mem_cons_of_mem nd hx)) restLines (by
            simp only [layerLines]
            exact hrest)
        rw [this]
        have hrecon : Node.nodeNew nd.link_weights (some b) = reconNode nd := by
          unfold reconNode
          rw [hb]
        rw [hrecon, List.map_cons]
        simp [List.append_assoc]

theorem fold_layers (parse : List Char → Option ℚ) (fmt : ℚ → List Char)
    (af : ActivationFunction) :
    ∀ (layers : List (List Node)) (done : List (List Node)) (cur : List Node)
      (act : Option ActivationFunction),
    (∀ layer ∈ layers, ∀ nd ∈ layer, nd.link_weights ≠ [] ∧
      (∀ q ∈ nd.link_weights, parse (fmt q) = some q ∧ GoodChars (fmt q)) ∧
      ∃ b, nd.b_weight = some b ∧ parse (fmt b) = some b ∧ GoodChars (fmt b)) →
    ∀ blocks, layers.mapM (layerLines fmt) = some blocks →
    (((blocks.map (fun ls => kwLb :: ls)).flatten) ++ [kwLb, fmtAct af]).foldlM
        (readStep parse) (⟨done, cur, act⟩ : PState)
      = some ⟨(done ++ [cur]) ++ layers.map (fun l => l.map reconNode), [], some af⟩ := by
  intro layers
  induction layers with
  | nil =>
    intro done cur act _ blocks h
    simp only [List.mapM_nil, pure, Option.some.injEq] at h
    subst h
    simp only [List.map_nil, List.flatten_nil, List.nil_append]
    rw [List.foldlM_cons, readStep_lb]
    simp only [optBind_some]
    rw [List.foldlM_cons, readStep_act]
    simp [List.foldlM]
  | cons layer rest ih =>
    intro done cur act hok blocks h
    rw [List.mapM_cons] at h
    cases hl0 : layerLines fmt layer with
    | none => rw [hl0] at h; exact absurd h (by simp)
    | some lines0 =>
      rw [hl0] at h
      simp only [optBind_some] at h
      cases hrest : rest.mapM (layerLines fmt) with
      | none => rw [hrest] at h; exact absurd h (by simp)
      | some blocksRest =>
        rw [hrest] at h
        simp only [optBind_some, pure, Option.some.injEq] at h
        subst h
        simp only [List.map_cons, List.flatten_cons, List.cons_append, List.append_assoc]
        rw [List.foldlM_cons, readStep_lb]
        simp only [optBind_some]
        rw [foldlM_append_opt,
          fold_weighted_layer parse fmt layer (done ++ [cur]) [] act (by simp)
            (hok layer (List.mem_cons_self layer rest)) lines0 hl0]
        simp only [Option.some_bind, List.nil_append]
        have := ih (done ++ [cur]) (layer.map reconNode) act
          (fun l hl => hok l (List.mem_cons_of_mem layer hl)) blocksRest hrest
        rw [this]
        simp [List.append_assoc]

theorem readModelLines_round_trip (parse : List Char → Option ℚ) (fmt : ℚ → List Char)
    (net : Network) (content : List (List Char))
    (hWf : net.Wf) (hne : ∀ l ∈ net.node_array, l ≠ [])
    (hfmt : ∀ q ∈ netScalars net, parse (fmt q) = some q ∧ GoodChars (fmt q))
    (hser : serializeNet fmt net = some content) :
    readModelLines parse content = .ok (reconNet net) := by
  -- scalar facts per node
  have hscal : ∀ layer ∈ net.node_array, ∀ nd ∈ layer,
      (∀ q ∈ nd.link_weights, parse (fmt q) = some q ∧ GoodChars (fmt q)) ∧
      (∀ b, nd.b_weight = some b → parse (fmt b) = some b ∧ GoodChars (fmt b)) := by
    intro layer hl nd hnd
    constructor
    · intro q hq
      refine hfmt q ?_
      unfold netScalars
      rw [List.mem_flatten]
      refine ⟨(layer.map (fun nd => nd.link_weights ++ nd.b_weight.toList)).flatten,
        List.mem_map_of_mem _ hl, ?_⟩
      rw [List.mem_flatten]
      exact ⟨nd.link_weights ++ nd.b_weight.toList, List.mem_map_of_mem _ hnd,
        List.mem_append.mpr (Or.inl hq)⟩
    · intro b hb
      refine hfmt b ?_
      unfold netScalars
      rw [List.mem_flatten]
      refine ⟨(layer.map (fun nd => nd.link_weights ++ nd.b_weight.toList)).flatten,
        List.mem_map_of_mem _ hl, ?_⟩
      rw [List.mem_flatten]
      refine ⟨nd.link_weights ++ nd.b_weight.toList, List.mem_map_of_mem _ hnd,
        List.mem_append.mpr (Or.inr ?_)⟩
      rw [hb]
      exact List.mem_cons_self b []
  have hlen2 := hWf.1
  cases harr : net.node_array with
  | nil => rw [harr] at hlen2; simp at hlen2
  | cons L0 rest =>
    -- sensor-node facts
    have hL0mem : L0 ∈ net.node_array := by rw [harr]; exact List.mem_cons_self _ _
    have hsensor : ∀ nd ∈ L0, nd.link_weights = [] ∧
        ∃ b, nd.b_weight = some b ∧ parse (fmt b) = some b ∧ GoodChars (fmt b) := by
      intro nd hnd
      have hwf0 := wf_node_at hWf (i := 0) (by rw [harr]; rfl) hnd
      simp only [if_pos rfl] at hwf0
      have hwnil : nd.link_weights = [] := List.length_eq_zero.mp hwf0.2.1
      obtain ⟨b, hb⟩ := Option.isSome_iff_exists.mp hwf0.2.2.2
      obtain ⟨_, hbs⟩ := hscal L0 hL0mem nd hnd
      exact ⟨hwnil, b, hb, hbs b hb⟩
    -- weighted-layer facts
    have hweighted : ∀ layer ∈ rest, ∀ nd ∈ layer, nd.link_weights ≠ [] ∧
        (∀ q ∈ nd.link_weights, parse (fmt q) = some q ∧ GoodChars (fmt q)) ∧
        ∃ b, nd.b_weight = some b ∧ parse (fmt b) = some b ∧ GoodChars (fmt b) := by
      intro layer hl nd hnd
      obtain ⟨j, hj⟩ := getIdx_of_mem hl
      have hlayer : getIdx net.node_array (j + 1) = some layer := by
        rw [harr]
        simpa [getIdx] using hj
      have hwf1 := wf_node_at hWf hlayer hnd
      simp only [if_neg (Nat.succ_ne_zero j), Nat.add_sub_cancel] at hwf1
      have hprev : (getIdx net.node_array j).isSome = true :=
        getIdx_isSome_of_lt (by have := getIdx_lt_length hlayer; omega)
      obtain ⟨prevL, hprevL⟩ := Option.isSome_iff_exists.mp hprev
      have hprevne : prevL ≠ [] := hne prevL (mem_of_getIdx hprevL)
      have hwlen : nd.link_weights.length = prevL.length := by
        rw [hwf1.2.1, hprevL]
        rfl
      have hmemlayer : layer ∈ net.node_array := mem_of_getIdx hlayer
      obtain ⟨hqs, hbs⟩ := hscal layer hmemlayer nd hnd
      refine ⟨?_, hqs, ?_⟩
      · intro hnil
        rw [hnil] at hwlen
        exact hprevne (List.length_eq_zero.mp hwlen.symm)
      · obtain ⟨b, hb⟩ := Option.isSome_iff_exists.mp hwf1.2.2.2
        exact ⟨b, hb, hbs b hb⟩
    -- decompose the serialized content
    unfold serializeNet at hser
    rw [harr, List.mapM_cons] at hser
    cases hl0 : layerLines fmt L0 with
    | none => rw [hl0] at hser; exact absurd hser (by simp)
    | some lines0 =>
      rw [hl0] at hser
      simp only [optBind_some] at hser
      cases hrest : rest.mapM (layerLines fmt) with
      | none => rw [hrest] at hser; exact absurd hser (by simp)
      | some blocks =>
        rw [hrest] at hser
        simp only [optBind_some, pure_eq_some, Option.map_some', Option.some.injEq] at hser
        subst hser
        unfold readModelLines
        rw [show lines0 ++ (blocks.map (fun l => kwLb :: l)).flatten
              ++ [kwLb, fmtAct net.activation_function]
            = lines0 ++ ((blocks.map (fun l => kwLb :: l)).flatten
              ++ [kwLb, fmtAct net.activation_function]) from by
          rw [List.append_assoc]]
        rw [foldlM_append_opt,
          fold_sensor_layer parse fmt L0 [] none hsensor lines0 hl0]
        simp only [Option.some_bind, List.nil_append]
        rw [fold_layers parse fmt net.activation_function rest [] (L0.map reconNode)
          none hweighted blocks hrest]
        simp only [List.nil_append]
        unfold reconNet
        rw [harr]
        simp [List.map_cons]

/-- C3: serialize-then-deserialize round-trip.  For every well-formed
network with nonempty layers whose scalars the float codec renders
faithfully (each printed scalar parses back to itself and contains no
separator characters), if `write_model` succeeds with file name `mname`,
then `read_model` on that file succeeds and returns a network with the
same layer count, the same per-node weight counts, the same weight and
bias values, and the same activation function (`NetEquiv`). -/
theorem C3_write_read_round_trip (parse : List Char → Option ℚ) (fmt : ℚ → List Char)
    (rng : Nat → Nat) (fuel : Nat) (fs : FS) (net : Network) (name mname : String)
    (fs' : FS)
    (hWf : net.Wf) (hne : ∀ l ∈ net.node_array, l ≠ [])
    (hfmt : ∀ q ∈ netScalars net, parse (fmt q) = some q ∧ GoodChars (fmt q))
    (hw : writeModel fmt rng 0 fuel fs net name = some (.ok mname, fs')) :
    ∃ net', readModel parse fs' mname = .ok net' ∧ NetEquiv net net' := by
  obtain ⟨-, ⟨content, hser, hfs⟩, -⟩ :=
    writeModel_ok_spec fmt rng fuel 0 fs net name mname fs' hw
  refine ⟨reconNet net, ?_, netEquiv_recon net⟩
  rw [hfs]
  unfold readModel
  rw [show List.lookup mname ((mname, content) :: fs) = some content from by
    simp [List.lookup]]
  exact readModelLines_round_trip parse fmt net content hWf hne hfmt hser

theorem C3_write_read_round_trip_witness :
    ∃ net', readModel parseW
        [("model_net_8.darj",
          [";1p2".toList, ";2p5".toList, "lb".toList, "1p2,-3p7;1p3".toList,
           "lb".toList, "tanh".toList])] "model_net_8.darj" = .ok net' ∧
      NetEquiv cnet1b net' :=
  C3_write_read_round_trip parseW fmtW (fun _ => 8) 1 [] cnet1b "net"
    "model_net_8.darj"
    [("model_net_8.darj",
      [";1p2".toList, ";2p5".toList, "lb".toList, "1p2,-3p7;1p3".toList,
       "lb".toList, "tanh".toList])]
    (by decide) (by decide) (by with_unfolding_all decide)
    (by with_unfolding_all decide)

/-! ## `test` leaves the trainable parameters unchanged (machinery) -/

theorem optBind_eq_bind {α β : Type} (x : Option α) (f : α → Option β) :
    Bind.bind x f = x.bind f := rfl

theorem map_setIdx_eq {α β : Type} (f : α → β) :
    ∀ (l : List α) (i : Nat) (a b : α), getIdx l i = some a → f b = f a →
    (setIdx l i b).map f = l.map f := by
  intro l
  induction l with
  | nil => intro i a b h _; exact absurd h (by cases i <;> simp [getIdx])
  | cons x xs ih =>
    intro i a b h hf
    cases i with
    | zero =>
      simp only [getIdx, Option.some.injEq] at h
      subst h
      simp [setIdx, hf]
    | succ j =>
      simp only [getIdx] at h
      simp [setIdx, ih j a b h hf]

theorem netWeights_setNode {net : Network} {l i : Nat} {nd nd' : Node}
    (h : net.getNode l i = some nd) (hs : nodeSig nd' = nodeSig nd) :
    netWeights (net.setNode l i nd') = netWeights net := by
  unfold Network.getNode at h
  cases hl : getIdx net.node_array l with
  | none => rw [hl] at h; exact absurd h (by simp)
  | some layer =>
    rw [hl] at h
    simp only [Option.some_bind] at h
    unfold Network.setNode netWeights
    rw [hl]
    exact map_setIdx_eq _ net.node_array l layer (setIdx layer i nd') hl
      (map_setIdx_eq nodeSig layer i nd nd' h hs)

theorem foldlM_preserves {σ α β : Type} (g : σ → β) (f : σ → α → Option σ) :
    ∀ (l : List α),
    (∀ s a s', a ∈ l → f s a = some s' → g s' = g s) →
    ∀ s s', l.foldlM f s = some s' → g s' = g s := by
  intro l
  induction l with
  | nil =>
    intro _ s s' h
    simp only [List.foldlM_nil, pure_eq_some, Option.some.injEq] at h
    rw [h]
  | cons a as ih =>
    intro hf s s' h
    rw [List.foldlM_cons, optBind_eq_bind, Option.bind_eq_some] at h
    obtain ⟨s1, h1, h2⟩ := h
    rw [ih (fun t b t' hb ht => hf t b t' (List.mem_cons_of_mem a hb) ht) s1 s' h2]
    exact hf s a s1 (List.mem_cons_self a as) h1

theorem nodeSig_runOutput {act : ActivationFunction → ℚ → ℚ}
    {af : ActivationFunction} {n nd' : Node}
    (h : n.runOutput act af = some nd') : nodeSig nd' = nodeSig n := by
  unfold Node.runOutput at h
  obtain ⟨v, -, rfl⟩ := Option.map_eq_some'.mp h
  rfl

theorem pushDownstream_weights {act : ActivationFunction → ℚ → ℚ} {net : Network}
    {data : List Input} {line : Nat} {net' : Network}
    (h : pushDownstream act net data line = some net') :
    netWeights net' = netWeights net := by
  unfold pushDownstream at h
  simp only [optBind_eq_bind, Option.bind_eq_some] at h
  obtain ⟨sidx, hsidx, slayer, hslayer, sample, hsample, net1, hnet1, hlayers⟩ := h
  have w1 : netWeights net1 = netWeights net := by
    refine foldlM_preserves netWeights _ _ ?_ net net1 hnet1
    intro s i s' _ hstep
    simp only [optBind_eq_bind, Option.bind_eq_some, Option.some.injEq] at hstep
    obtain ⟨v, hv, nd, hnd, hset⟩ := hstep
    subst hset
    exact netWeights_setNode hnd rfl
  have w2 : netWeights net' = netWeights net1 := by
    refine foldlM_preserves netWeights _ _ ?_ net1 net' hlayers
    intro s layer s' _ hstep
    simp only [optBind_eq_bind, Option.bind_eq_some] at hstep
    obtain ⟨clayer, hclayer, hfold⟩ := hstep
    refine foldlM_preserves netWeights _ _ ?_ s s' hfold
    intro t node t' _ hstep2
    simp only [optBind_eq_bind, Option.bind_eq_some, Option.some.injEq] at hstep2
    obtain ⟨player, hplayer, t1, hfold2, nd, hnd, nd2, hnd2, hset⟩ := hstep2
    have wp : netWeights t1 = netWeights t := by
      refine foldlM_preserves netWeights _ _ ?_ t t1 hfold2
      intro u prev u' _ hstep3
      simp only [optBind_eq_bind, Option.bind_eq_some, Option.some.injEq] at hstep3
      obtain ⟨pnd, hpnd, pv, hpv, nda, hnda, hif⟩ := hstep3
      split at hif
      · simp only [optBind_eq_bind, Option.bind_eq_some, Option.some.injEq] at hif
        obtain ⟨ndb, hndb, ndc, hndc, hset3⟩ := hif
        subst hset3
        rw [netWeights_setNode hndb (nodeSig_runOutput hndc)]
        exact netWeights_setNode hnda rfl
      · exact absurd hif (by simp)
    subst hset
    rw [netWeights_setNode hnd (nodeSig_runOutput hnd2)]
    exact wp
  rw [w2, w1]

theorem collectAnswerOutputs_weights {act : ActivationFunction → ℚ → ℚ}
    {net : Network} {p : List ℚ × Network}
    (h : collectAnswerOutputs act net = some p) :
    netWeights p.2 = netWeights net := by
  unfold collectAnswerOutputs at h
  simp only [optBind_eq_bind, Option.bind_eq_some] at h
  obtain ⟨aidx, haidx, alayer, halayer, hfold⟩ := h
  refine foldlM_preserves (fun acc : List ℚ × Network => netWeights acc.2) _ _
    ?_ ([], net) p hfold
  intro s i s' _ hstep
  simp only [optBind_eq_bind, Option.bind_eq_some, Option.some.injEq] at hstep
  obtain ⟨nd, hnd, nd', hnd', v, hv, hset⟩ := hstep
  subst hset
  exact netWeights_setNode hnd (nodeSig_runOutput hnd')

theorem testRun_fold_spec (act : ActivationFunction → ℚ → ℚ) (d : List Input) :
    ∀ (l : List Nat) (acc res : List Input × Network),
    l.foldlM (fun (acc : List Input × Network) i => do
        let net ← pushDownstream act acc.2 d i
        let p ← collectAnswerOutputs act net
        some (acc.1 ++ [Input.inputNew p.1 none], p.2)) acc = some res →
    netWeights res.2 = netWeights acc.2 ∧
    ∃ extra : List Input, res.1 = acc.1 ++ extra ∧ extra.length = l.length ∧
      ∀ o ∈ extra, o.answer = none := by
  intro l
  induction l with
  | nil =>
    intro acc res h
    simp only [List.foldlM_nil, pure_eq_some, Option.some.injEq] at h
    subst h
    exact ⟨rfl, [], by simp, rfl, by simp⟩
  | cons a as ih =>
    intro acc res h
    rw [List.foldlM_cons, optBind_eq_bind, Option.bind_eq_some] at h
    obtain ⟨acc1, h1, h2⟩ := h
    simp only [optBind_eq_bind, Option.bind_eq_some, Option.some.injEq] at h1
    obtain ⟨net1, hpd, p, hca, hacc1⟩ := h1
    obtain ⟨hw, extra, hres, hlen, hans⟩ := ih acc1 res h2
    subst hacc1
    refine ⟨?_, Input.inputNew p.1 none :: extra, ?_, by simp [hlen], ?_⟩
    · rw [hw]
      exact (collectAnswerOutputs_weights hca).trans (pushDownstream_weights hpd)
    · rw [hres]
      simp
    · intro o ho
      rcases List.mem_cons.mp ho with ho | ho
      · rw [ho]; rfl
      · exact hans o ho

/-- C9: frame effect of `test`.  For every activation capability, shuffle
(length-preserving, as `data.shuffle` is), network and sample list, if
`test` returns `Ok` then every link weight and bias weight of the network
is unchanged (`netWeights` is preserved; only caches, `link_vals` and
error signals may differ), and the returned list holds exactly one
unlabeled (`answer = none`) output vector per input sample. -/
theorem C9_test_frame (act : ActivationFunction → ℚ → ℚ) (sh : List Input → List Input)
    (net : Network) (data outs : List Input) (net' : Network)
    (h : testRun act sh net data = some (outs, net'))
    (hsh : (sh data).length = data.length) :
    netWeights net' = netWeights net ∧ outs.length = data.length ∧
    ∀ o ∈ outs, o.answer = none := by
  unfold testRun at h
  obtain ⟨hw, extra, hres, hlen, hans⟩ :=
    testRun_fold_spec act (sh data) (List.range (sh data).length) ([], net) (outs, net') h
  simp only [List.nil_append] at hres
  subst hres
  refine ⟨hw, ?_, hans⟩
  rw [hlen, List.length_range, hsh]

theorem C9_test_frame_witness :
    netWeights c9net = netWeights cnet5 ∧
    [Input.inputNew [3/2] none].length = [Input.inputNew [1, 2] none].length ∧
    ∀ o ∈ [Input.inputNew [3/2] none], o.answer = none :=
  C9_test_frame actId id cnet5 [Input.inputNew [1, 2] none]
    [Input.inputNew [3/2] none] c9net (by with_unfolding_all decide) rfl

/-- C3, counterexample to the original universal round-trip claim: the
constructible network `new(2, 0, 2, 1, Sigmoid)` (zero hidden neurons, so
its answer nodes have zero incoming links) is well-formed and its scalars
are rendered faithfully by the codec, and `write_model` succeeds on it —
yet `read_model` on the produced file panics instead of returning a
network: the weighted-node branch parses the empty weights field of a
zero-link node line with `"".parse::<f32>().unwrap()` (generation.rs:525).
So writing and immediately reading back does not reproduce the network. -/
theorem C3_counterexample :
    c3badNet.Wf ∧
    (∀ q ∈ netScalars c3badNet, parseW (fmtW q) = some q ∧ GoodChars (fmtW q)) ∧
    writeModel fmtW (fun _ => 8) 0 1 [] c3badNet "net"
      = some (.ok "model_net_8.darj", c3badFs) ∧
    (readModel parseW c3badFs "model_net_8.darj").isPanik = true := by
  with_unfolding_all decide
